import Mathlib

/-!
Verification of the Floating Sandbox simulation core against its
natural-language specification.

The development is a shallow embedding of the C++ sources under `src/`:

* `Points.UpdateMasses`, `Points.Detach`, `Points.FindFreeEphemeralParticle`,
  `Points.CreateEphemeralParticleAirBubble`, `Points.UpdateCombustionLowFrequency`,
  `Points.UpdateCombustionHighFrequency` (src/Game/Points.cpp);
* `OceanSurface::Update`, the semi-Lagrangian advection routines and the
  `SWEWaveStateMachine` (src/Game/OceanSurface.cpp);
* `GameController::RunGameIteration` / `InternalUpdate` / `SetPaused`
  (src/Game/GameController.cpp).

Machine `float` arithmetic is embedded as exact `ℚ` arithmetic (the verified
claims are about assignments, control flow, index bounds and counting, none
of which depend on rounding); the transcendental curve of the ocean wave
state machine is embedded over `ℝ` with `Real.sin`/`Real.exp`.
-/

namespace FloatingSandbox

/-! ## Points.UpdateMasses (src/Game/Points.cpp lines 1180-1204)

The per-particle state is embedded as a record holding the buffers that
`UpdateMasses` reads (`mAugmentedMaterialMassBuffer`, `mWaterBuffer`,
`mMaterialWaterVolumeFillBuffer`, `mIntegrationFactorTimeCoefficientBuffer`)
and writes (`mMassBuffer`, `mIntegrationFactorBuffer`), together with the
other per-particle fields of the structure-of-arrays store that the routine
leaves untouched. -/

structure PointState where
  augmentedMaterialMass : ℚ
  water : ℚ
  materialWaterVolumeFill : ℚ
  integrationFactorTimeCoefficient : ℚ
  mass : ℚ
  /-- Embeds `mIntegrationFactorBuffer` holds a `vec2f` whose two components are
  both assigned `coefficient / mass`. -/
  integrationFactor : ℚ × ℚ
  position : ℚ × ℚ
  velocity : ℚ × ℚ
  temperature : ℚ
  decay : ℚ
  isPinned : Bool
  deriving Repr, DecidableEq

/-- The game parameters read by `UpdateMasses`: the constant
`GameParameters::WaterMass` and the adjustable
`gameParameters.WaterDensityAdjustment`. -/
structure MassParams where
  waterMass : ℚ
  waterDensityAdjustment : ℚ
  deriving Repr, DecidableEq

/-- The body of the per-particle loop of `Points::UpdateMasses`:
`mass = augmented + min(water, volumeFill) * densityAdjustedWaterMass`,
`integrationFactor = (coeff / mass, coeff / mass)`. -/
def updateMassesOne (params : MassParams) (p : PointState) : PointState :=
  let densityAdjustedWaterMass := params.waterMass * params.waterDensityAdjustment
  let mass := p.augmentedMaterialMass
    + min p.water p.materialWaterVolumeFill * densityAdjustedWaterMass
  { p with
      mass := mass
      integrationFactor :=
        (p.integrationFactorTimeCoefficient / mass,
         p.integrationFactorTimeCoefficient / mass) }

/-- Embeds `Points::UpdateMasses`: the loop `for (ElementIndex i : *this)` over all
live particles. -/
def updateMasses (params : MassParams) (points : List PointState) : List PointState :=
  points.map (updateMassesOne params)

/-! ## Points.Detach (src/Game/Points.cpp lines 281-304)

`Detach` first invokes the detach handler (when one is registered) and then
writes the supplied velocity unless the particle is pinned.  The handler is
`Ship::PointDetachHandler`, which severs springs and triangles; it is
embedded as an arbitrary transformation of the point store. -/

/-- The `if (!!mDetachHandler) { mDetachHandler(...); }` call: the handler
is a `std::function` member (`Ship::PointDetachHandler`, which severs
springs and triangles), embedded as an optional function on the store. -/
def applyDetachHandler
    (detachHandler : Option (List PointState → List PointState))
    (points : List PointState) : List PointState :=
  match detachHandler with
  | some h => h points
  | Option.none => points

/-- Embeds `Points::Detach`: invoke the detach handler, then imprint the velocity
unless the point is pinned. -/
def detach
    (detachHandler : Option (List PointState → List PointState))
    (pointElementIndex : ℕ)
    (velocity : ℚ × ℚ)
    (points : List PointState) : List PointState :=
  -- Invoke detach handler, then imprint velocity unless the point is pinned
  match (applyDetachHandler detachHandler points)[pointElementIndex]? with
  | some p =>
      if p.isPinned then applyDetachHandler detachHandler points
      else (applyDetachHandler detachHandler points).set pointElementIndex
        { p with velocity := velocity }
  | Option.none => applyDetachHandler detachHandler points

/-! ## Points.FindFreeEphemeralParticle (src/Game/Points.cpp lines 1208-1277)

The ephemeral pool lives in the index region `[shipPointCount, allPointCount)`.
The allocator state holds the buffers the routine reads and writes:
`mEphemeralTypeBuffer`, `mEphemeralStartTimeBuffer` and
`mFreeEphemeralParticleSearchStartIndex`. -/

inductive EphemeralType where
  | none
  | airBubble
  | debris
  | sparkle
  deriving Repr, DecidableEq

/-- Embeds `NoneElementIndex`: the in-band "no index" value,
`std::numeric_limits<std::uint32_t>::max()`. -/
def noneElementIndex : ℕ := 2 ^ 32 - 1

structure EphemeralPoints where
  shipPointCount : ℕ
  allPointCount : ℕ
  ephemeralType : ℕ → EphemeralType
  ephemeralStartTime : ℕ → ℚ
  freeEphemeralParticleSearchStartIndex : ℕ

/-- The cyclic visit order of the allocator's scan loop: starting at
`searchStart`, incrementing, wrapping from `allPointCount` back to
`shipPointCount`, and stopping after `allPointCount - shipPointCount`
steps (when the loop would see `searchStart` again). -/
def visitOrder (nShip nAll searchStart : ℕ) : List ℕ :=
  (List.range (nAll - nShip)).map
    (fun k => nShip + (searchStart - nShip + k) % (nAll - nShip))

/-- The scan loop of `FindFreeEphemeralParticle`: returns the first slot of
`EphemeralType::None`, or — when none is found — the running "oldest"
accumulator (`oldestParticle`, initially `NoneElementIndex`, updated whenever
`now - startTime >= oldestParticleLifetime`). -/
def findFreeScan (types : ℕ → EphemeralType) (starts : ℕ → ℚ) (now : ℚ) :
    List ℕ → ℕ → ℚ → Option ℕ × ℕ
  | [], oldestParticle, _ => (Option.none, oldestParticle)
  | p :: rest, oldestParticle, oldestLifetime =>
      if types p = EphemeralType.none then
        (some p, oldestParticle)
      else
        let lifetime := now - starts p
        if oldestLifetime ≤ lifetime then
          findFreeScan types starts now rest p lifetime
        else
          findFreeScan types starts now rest oldestParticle oldestLifetime

/-- Wrap-around of the search-start update:
`if (mFreeEphemeralParticleSearchStartIndex >= mAllPointCount)
   mFreeEphemeralParticleSearchStartIndex = mShipPointCount;`. -/
def wrapSearchStart (nShip nAll p : ℕ) : ℕ :=
  if nAll ≤ p then nShip else p

/-- Embeds `Points::FindFreeEphemeralParticle`.  Returns the found element index
(`noneElementIndex` when allocation fails) and the updated store.  The
`% 2 ^ 32` embeds the `std::uint32_t` increment of the stolen slot's index
(relevant only in the degenerate branch in which no slot ever updated the
"oldest" accumulator). -/
def findFreeEphemeralParticle (st : EphemeralPoints) (now : ℚ) (force : Bool) :
    ℕ × EphemeralPoints :=
  match findFreeScan st.ephemeralType st.ephemeralStartTime now
      (visitOrder st.shipPointCount st.allPointCount
        st.freeEphemeralParticleSearchStartIndex)
      noneElementIndex 0 with
  | (some p, _) =>
      -- Found: remember to start after this one next time
      (p, { st with
              freeEphemeralParticleSearchStartIndex :=
                wrapSearchStart st.shipPointCount st.allPointCount
                  ((p + 1) % 2 ^ 32) })
  | (Option.none, oldestParticle) =>
      if force then
        -- Steal the oldest
        (oldestParticle,
         { st with
             freeEphemeralParticleSearchStartIndex :=
               wrapSearchStart st.shipPointCount st.allPointCount
                 ((oldestParticle + 1) % 2 ^ 32) })
      else
        (noneElementIndex, st)

/-- Embeds `Points::CreateEphemeralParticleAirBubble` restricted to the buffers of
`EphemeralPoints`: allocates a slot with `force = false` and, when a slot is
obtained, writes `EphemeralType::AirBubble` and the start time into it (the
C++ also fills position/velocity/material/… buffers of the slot; on failure
it returns immediately, leaving every buffer untouched). -/
def createEphemeralParticleAirBubble (st : EphemeralPoints) (now : ℚ) :
    EphemeralPoints :=
  let res := findFreeEphemeralParticle st now false
  if res.1 = noneElementIndex then res.2
  else
    { res.2 with
        ephemeralType := fun p =>
          if p = res.1 then EphemeralType.airBubble else res.2.ephemeralType p
        ephemeralStartTime := fun p =>
          if p = res.1 then now else res.2.ephemeralStartTime p }

/-! ## OceanSurface (src/Game/OceanSurface.cpp)

The two shallow-water fields (`H`, `V`) are embedded as `ℕ → ℚ`, each
double-buffered.  `n` stands for `SWETotalSamples` (a compile-time constant
`2 + SamplesCount + 2` in the C++, abstract here); each buffer is allocated
with `n + 1` cells ("one extra cell just to ease interpolations").
`SWEWaveGenerationSamples = 1` and `SWEBoundaryConditionsSamples = 1`.
`dt` is `GameParameters::SimulationStepTimeDuration` and `dx` is `Dx`;
`g` is `GameParameters::GravityMagnitude`. -/

/-- Embeds `SWEHeightFieldOffset`: the rest height of the height field. -/
def sweHeightFieldOffset : ℚ := 100

/-- Embeds `SWEBoundaryConditionsSamples`. -/
def sweBoundaryConditionsSamples : ℕ := 1

/-- Embeds `FastTruncateInt32`: float-to-int32 conversion, truncation toward zero. -/
def fastTruncateInt32 (x : ℚ) : ℤ :=
  if x < 0 then ⌈x⌉ else ⌊x⌋

/-- The clamped back-traced cell index of the semi-Lagrangian advection:
`std::min(std::max(0.0f, prevCellIndex), (float)(SWETotalSamples - 1))`. -/
def prevCellIndexClamped (n : ℕ) (prevCellIndex : ℚ) : ℚ :=
  min (max 0 prevCellIndex) ((n : ℚ) - 1)

/-- Embeds `prevCellIndexI`: integral part of the clamped back-traced index. -/
def prevCellIndexIntegral (n : ℕ) (prevCellIndex : ℚ) : ℤ :=
  fastTruncateInt32 (prevCellIndexClamped n prevCellIndex)

/-- Embeds `prevCellIndexF`: fractional part of the clamped back-traced index. -/
def prevCellIndexFractional (n : ℕ) (prevCellIndex : ℚ) : ℚ :=
  prevCellIndexClamped n prevCellIndex - prevCellIndexIntegral n prevCellIndex

/-- Embeds `OceanSurface::AdvectHeightField`: writes the interior cells
`[1, n - 1)` of the next height field; other cells of the next buffer keep
their previous values. -/
def advectHeightField (n : ℕ) (dt dx : ℚ) (hCur vCur hNxt : ℕ → ℚ) : ℕ → ℚ :=
  fun i =>
    if sweBoundaryConditionsSamples ≤ i ∧ i < n - sweBoundaryConditionsSamples then
      let v := (vCur i + vCur (i + 1)) / 2
      let prevCellIndex := (i : ℚ) - v * dt / dx
      let prevCellIndexI := prevCellIndexIntegral n prevCellIndex
      let prevCellIndexF := prevCellIndexFractional n prevCellIndex
      (1 - prevCellIndexF) * hCur prevCellIndexI.toNat
        + prevCellIndexF * hCur (prevCellIndexI.toNat + 1)
    else hNxt i

/-- Embeds `OceanSurface::AdvectVelocityField`. -/
def advectVelocityField (n : ℕ) (dt dx : ℚ) (vCur vNxt : ℕ → ℚ) : ℕ → ℚ :=
  fun i =>
    if sweBoundaryConditionsSamples ≤ i ∧ i < n - sweBoundaryConditionsSamples then
      let v := vCur i
      let prevCellIndex := (i : ℚ) - v * dt / dx
      let prevCellIndexI := prevCellIndexIntegral n prevCellIndex
      let prevCellIndexF := prevCellIndexFractional n prevCellIndex
      (1 - prevCellIndexF) * vCur prevCellIndexI.toNat
        + prevCellIndexF * vCur (prevCellIndexI.toNat + 1)
    else vNxt i

/-- Embeds `OceanSurface::UpdateHeightField`. -/
def updateHeightField (n : ℕ) (dt dx : ℚ) (hNxt vNxt : ℕ → ℚ) : ℕ → ℚ :=
  fun i =>
    if sweBoundaryConditionsSamples ≤ i ∧ i < n - sweBoundaryConditionsSamples then
      hNxt i - hNxt i * (vNxt (i + 1) - vNxt i) / dx * dt
    else hNxt i

/-- Embeds `OceanSurface::UpdateVelocityField`. -/
def updateVelocityField (n : ℕ) (dt dx g : ℚ) (hNxt vNxt : ℕ → ℚ) : ℕ → ℚ :=
  fun i =>
    if sweBoundaryConditionsSamples ≤ i ∧ i < n - sweBoundaryConditionsSamples then
      vNxt i + g * (hNxt (i - 1) - hNxt i) / dx * dt
    else vNxt i

/-- The reflective boundary-condition writes of `OceanSurface::Update`
(two sequential assignments on the next height field):
`H[0] = H[1]` then `H[n-1] = H[n-2]`. -/
def applyHeightBoundaryConditions (n : ℕ) (h : ℕ → ℚ) : ℕ → ℚ :=
  let h1 := Function.update h 0 (h 1)
  Function.update h1 (n - 1) (h1 (n - 1 - 1))

/-- The double-buffered shallow-water state of `OceanSurface`. -/
structure SWEFields where
  hCur : ℕ → ℚ
  vCur : ℕ → ℚ
  hNxt : ℕ → ℚ
  vNxt : ℕ → ℚ

/-- The `OceanSurface` constructor: all cells (including the extra one) of
both buffers are set to `SWEHeightFieldOffset` resp. `0`; "velocity boundary
conditions are initialized here once and for all". -/
def oceanSurfaceInit : SWEFields :=
  { hCur := fun _ => sweHeightFieldOffset
    vCur := fun _ => 0
    hNxt := fun _ => sweHeightFieldOffset
    vNxt := fun _ => 0 }

/-- Embeds `OceanSurface::Update`, steps 2-4: the external-wave state machine's
write into the current height field (embedded as an optional `(index, value)`
pair, covering every write the state machine can produce), the SWE update
(advection, height update, velocity update, reflective height boundary
conditions) and the buffer swap.  Step 5 (render-sample generation) writes
only the `mSamples` buffer, which is not part of `SWEFields`. -/
def oceanSurfaceUpdate (n : ℕ) (dt dx g : ℚ) (ext : Option (ℕ × ℚ))
    (s : SWEFields) : SWEFields :=
  let hCur :=
    match ext with
    | some (idx, val) => Function.update s.hCur idx val
    | Option.none => s.hCur
  let hAdv := advectHeightField n dt dx hCur s.vCur s.hNxt
  let vAdv := advectVelocityField n dt dx s.vCur s.vNxt
  let hUpd := updateHeightField n dt dx hAdv vAdv
  let vUpd := updateVelocityField n dt dx g hUpd vAdv
  let hBnd := applyHeightBoundaryConditions n hUpd
  { hCur := hBnd
    vCur := vUpd
    hNxt := hCur
    vNxt := s.vCur }

/-- The boundary-velocity invariant: the two boundary cells of both velocity
buffers are zero (established once by the constructor; the velocity loops
never write them). -/
def VelocityBoundaryZero (n : ℕ) (s : SWEFields) : Prop :=
  s.vCur 0 = 0 ∧ s.vCur (n - 1) = 0 ∧ s.vNxt 0 = 0 ∧ s.vNxt (n - 1) = 0

/-! ## OceanSurface::SWEWaveStateMachine (src/Game/OceanSurface.cpp lines 506-645)

The user-driven external wave state machine.  Its height interpolation and
delay calibration use `sinf`/`exp`, so this part of the embedding lives over
`ℝ`.  `dt` is again `GameParameters::SimulationStepTimeDuration`. -/

inductive WavePhaseType where
  | rise
  | fall
  deriving Repr, DecidableEq

inductive ReleaseModeType where
  | automatic
  | onCue
  deriving Repr, DecidableEq

structure SWEWaveStateMachine where
  sampleIndex : ℤ
  lowHeight : ℝ
  currentPhaseStartHeight : ℝ
  currentPhaseTargetHeight : ℝ
  currentHeight : ℝ
  currentProgress : ℝ
  startSimulationTime : ℝ
  currentWavePhase : WavePhaseType
  releaseMode : ReleaseModeType
  smoothingDelay : ℝ

/-- Embeds `SWEWaveStateMachine::CalculateSmoothingDelay`, reading the member fields
`mCurrentPhaseTargetHeight`, `mCurrentHeight` and `mCurrentWavePhase` as they
stand when it is called. -/
noncomputable def calculateSmoothingDelay (dt : ℝ)
    (targetHeight currentHeight : ℝ) (phase : WavePhaseType) : ℝ :=
  let deltaH := min |targetHeight - currentHeight| ((100 : ℝ) / 5)
  let delayTicks :=
    match phase with
    | WavePhaseType.rise =>
        -19.88881 + (147.403 / 0.6126081) * (1 - Real.exp (-0.6126081 * deltaH))
    | WavePhaseType.fall =>
        1.220013 + (7.8394 / 0.6485749) * (1 - Real.exp (-0.6485749 * deltaH))
  max delayTicks 1 * dt

/-- The `SWEWaveStateMachine` constructor. -/
noncomputable def mkSWEWaveStateMachine (dt : ℝ) (sampleIndex : ℤ)
    (startHeight targetHeight : ℝ) (releaseMode : ReleaseModeType)
    (currentSimulationTime : ℝ) : SWEWaveStateMachine :=
  { sampleIndex := sampleIndex
    lowHeight := startHeight
    currentPhaseStartHeight := startHeight
    currentPhaseTargetHeight := targetHeight
    currentHeight := startHeight
    currentProgress := 0
    startSimulationTime := currentSimulationTime
    currentWavePhase := WavePhaseType.rise
    releaseMode := releaseMode
    smoothingDelay := calculateSmoothingDelay dt targetHeight startHeight WavePhaseType.rise }

/-- Embeds `SWEWaveStateMachine::StartFallPhase`: reroots the interpolation at the
current height, targets the stored low height, switches to `Fall` and
recomputes the delay from the updated fields. -/
noncomputable def startFallPhase (dt : ℝ) (sm : SWEWaveStateMachine)
    (currentSimulationTime : ℝ) : SWEWaveStateMachine :=
  { sm with
      currentPhaseStartHeight := sm.currentHeight
      currentPhaseTargetHeight := sm.lowHeight
      currentProgress := 0
      startSimulationTime := currentSimulationTime
      currentWavePhase := WavePhaseType.fall
      smoothingDelay :=
        calculateSmoothingDelay dt sm.lowHeight sm.currentHeight WavePhaseType.fall }

/-- Embeds `SWEWaveStateMachine::Restart`: "Rise in any case, and our new target is
the restart height"; the delay is recalculated from the updated fields. -/
noncomputable def smRestart (dt : ℝ) (sm : SWEWaveStateMachine)
    (restartHeight currentSimulationTime : ℝ) : SWEWaveStateMachine :=
  { sm with
      currentPhaseStartHeight := sm.currentHeight
      currentPhaseTargetHeight := restartHeight
      currentProgress := 0
      startSimulationTime := currentSimulationTime
      currentWavePhase := WavePhaseType.rise
      smoothingDelay :=
        calculateSmoothingDelay dt restartHeight sm.currentHeight WavePhaseType.rise }

/-- Embeds `SWEWaveStateMachine::Release`. -/
noncomputable def smRelease (dt : ℝ) (sm : SWEWaveStateMachine)
    (currentSimulationTime : ℝ) : SWEWaveStateMachine :=
  if sm.currentWavePhase = WavePhaseType.rise then
    startFallPhase dt sm currentSimulationTime
  else
    { sm with currentProgress := 1 }

/-- The new progress value computed by `SWEWaveStateMachine::Update`. -/
noncomputable def smUpdateProgress (sm : SWEWaveStateMachine)
    (currentSimulationTime : ℝ) : ℝ :=
  if sm.currentProgress < 1 then
    (currentSimulationTime - sm.startSimulationTime) / sm.smoothingDelay
  else sm.currentProgress

/-- Embeds `SWEWaveStateMachine::Update`: advances the progress (iff not yet
complete), interpolates the height along `sin(π/2 · min(progress, 1))`,
switches `Rise` to `Fall` on completion in automatic release mode, and
returns `none` when a completed `Fall` ends the machine. -/
noncomputable def smUpdate (dt : ℝ) (sm : SWEWaveStateMachine)
    (currentSimulationTime : ℝ) : Option ℝ × SWEWaveStateMachine :=
  let progress := smUpdateProgress sm currentSimulationTime
  let sinProgress := Real.sin (Real.pi / 2 * min progress 1)
  let height :=
    sm.currentPhaseStartHeight
      + (sm.currentPhaseTargetHeight - sm.currentPhaseStartHeight) * sinProgress
  let sm1 := { sm with currentProgress := progress, currentHeight := height }
  if 1 ≤ progress then
    if sm.currentWavePhase = WavePhaseType.rise then
      if sm.releaseMode = ReleaseModeType.automatic then
        (some height, startFallPhase dt sm1 currentSimulationTime)
      else
        (some height, sm1)
    else
      (Option.none, sm1)
  else
    (some height, sm1)

/-- Modelled from the spec: the `sin²` interpolation curve the specification
ascribes to the `Rise` phase ("`Rise` interpolates height at the tagged cell
toward target along `sin²`"), for comparison with the source's
interpolation. -/
noncomputable def specSinSqHeight (startHeight targetHeight progress : ℝ) : ℝ :=
  startHeight
    + (targetHeight - startHeight) * Real.sin (Real.pi / 2 * min progress 1) ^ 2

/-! ## GameController (src/Game/GameController.cpp)

`RunGameIteration` (lines 292-359), `InternalUpdate` (lines 947-971) and
`SetPaused` (lines 412-419).  The world, the parameter-smoother vector and
the event dispatcher are external collaborators (their classes are not part
of the translated sources), so the controller state is polymorphic in their
states and `InternalUpdate` takes their update functions as parameters.
The render half of `RunGameIteration` and `UpdateStateMachines` touch only
fields (render stats, zoom/camera smoothing, notification state machines)
that are disjoint from the ones tracked here. -/

structure GameControllerState (W S E : Type) where
  isPaused : Bool
  isMoveToolEngaged : Bool
  /-- State of the six `mParameterSmoothers`. -/
  smootherStates : S
  /-- State of `mWorld`. -/
  world : W
  /-- Events queued in the `mGameEventDispatcher`, not yet flushed. -/
  pendingEvents : List E
  /-- Events already flushed to the event handlers. -/
  flushedEvents : List E
  /-- Whether `GameWallClock::GetInstance()` is paused. -/
  wallClockPaused : Bool

/-- Embeds `GameController::InternalUpdate`: updates every parameter smoother,
updates the world (which may enqueue events), then flushes the queued
events to the dispatcher's handlers. -/
def internalUpdate {W S E : Type}
    (smootherUpdate : S → S) (worldUpdate : W → W × List E)
    (st : GameControllerState W S E) : GameControllerState W S E :=
  let smootherStates := smootherUpdate st.smootherStates
  let worldResult := worldUpdate st.world
  { st with
      smootherStates := smootherStates
      world := worldResult.1
      pendingEvents := []
      flushedEvents := st.flushedEvents ++ (st.pendingEvents ++ worldResult.2) }

/-- The update half of `GameController::RunGameIteration`:
`if (!mIsPaused && !mIsMoveToolEngaged) { ... InternalUpdate(); ... }`. -/
def runGameIterationUpdatePhase {W S E : Type}
    (smootherUpdate : S → S) (worldUpdate : W → W × List E)
    (st : GameControllerState W S E) : GameControllerState W S E :=
  if !st.isPaused && !st.isMoveToolEngaged then
    internalUpdate smootherUpdate worldUpdate st
  else st

/-- Embeds `GameController::SetPaused`: freezes the wall clock and records the
paused state. -/
def setPaused {W S E : Type} (isPaused : Bool)
    (st : GameControllerState W S E) : GameControllerState W S E :=
  { st with wallClockPaused := isPaused, isPaused := isPaused }

/-! ## Heat & Combustion (src/Game/Points.cpp lines 376-753)

`Points::UpdateCombustionLowFrequency` and
`Points::UpdateCombustionHighFrequency`.  The combustion-relevant per-point
mutable state is the combustion state buffer, the decay buffer and the
burning-points list; the thermal and water buffers, the world's underwater
predicate, the connectivity, the plane ids and the random draws are read-only
inputs of each pass and are supplied by an environment record.  (Temperature
writes made by the high-frequency pass land in the thermal buffer, which the
next pass reads back through its environment.) -/

inductive CombustionStateType where
  | notBurning
  | developing1
  | developing2
  | burning
  | extinguishingConsumed
  | extinguishingSmothered
  deriving Repr, DecidableEq

/-- The per-point `CombustionState` record.  Its default constructor —
modelled from the spec's data model, the class itself being declared in a
header outside the translated sources — is the `NotBurning` variant with
zero flame development. -/
structure CombustionState where
  state : CombustionStateType := CombustionStateType.notBurning
  flameDevelopment : ℚ := 0
  maxFlameDevelopment : ℚ := 0
  personality : ℚ := 0
  deriving Repr, DecidableEq

instance : Inhabited CombustionState := ⟨{}⟩

/-- Whether a combustion state counts against the burning cap: the
`Developing_1`/`Developing_2`/`Burning` states. -/
def isActiveCombustion (c : CombustionStateType) : Bool :=
  match c with
  | CombustionStateType.developing1 => true
  | CombustionStateType.developing2 => true
  | CombustionStateType.burning => true
  | _ => false

/-- The combustion-relevant mutable state of the point store. -/
structure CombustionPoints where
  combustionState : ℕ → CombustionState
  decay : ℕ → ℚ
  burningPoints : List ℕ

/-- The point store at construction: every point is added with
`mDecayBuffer.emplace_back(1.0f)` and a default `CombustionState`, and the
burning-points list is empty. -/
def combustionInit : CombustionPoints :=
  { combustionState := fun _ => {}
    decay := fun _ => 1
    burningPoints := [] }

/-- Read-only inputs of `UpdateCombustionLowFrequency`. -/
structure CombustionLowFreqEnv where
  /-- Embeds `mTemperatureBuffer`. -/
  temperature : ℕ → ℚ
  /-- Embeds `mWaterBuffer`. -/
  water : ℕ → ℚ
  /-- Embeds `mParentWorld.IsUnderwater(GetPosition(p))`. -/
  isUnderwater : ℕ → Bool
  /-- Embeds `mMaterialIgnitionTemperatureBuffer`. -/
  materialIgnitionTemperature : ℕ → ℚ
  /-- The other endpoints of `GetConnectedSprings(p).ConnectedSprings`. -/
  connectedNeighbors : ℕ → List ℕ
  /-- Embeds `mPlaneIdBuffer`. -/
  planeId : ℕ → ℕ
  /-- The per-point decay factor `alpha = 0.01^(1/totalDecaySteps)` with
  `totalDecaySteps = (90 / (CombustionSpeedAdjustment · dt)) ·
  (mass/750)^0.15`; the transcendental computation is supplied by the
  environment. -/
  decayAlpha : ℕ → ℚ
  /-- Embeds `GameRandomEngine::GetInstance().GenerateRandomNormalizedReal()` for
  each ignited point. -/
  personalityDraw : ℕ → ℚ
  /-- Modelled from the spec: the draw of
  `GameRandomEngine::GetInstance().Choose(size_t(6))` (the engine is not
  among the translated sources); per the spec the resulting count
  `4 + chooseDraw` ranges over 4…10. -/
  chooseDraw : ℕ
  /-- Embeds `gameParameters.IgnitionTemperatureAdjustment`. -/
  ignitionTemperatureAdjustment : ℚ
  /-- Embeds `GameParameters::IgnitionTemperatureHighWatermark`. -/
  ignitionTemperatureHighWatermark : ℚ
  /-- Embeds `GameParameters::IgnitionTemperatureLowWatermark`. -/
  ignitionTemperatureLowWatermark : ℚ
  /-- Embeds `GameParameters::SmotheringWaterLowWatermark`. -/
  smotheringWaterLowWatermark : ℚ
  /-- Embeds `GameParameters::SmotheringDecayLowWatermark`. -/
  smotheringDecayLowWatermark : ℚ
  /-- Embeds `GameParameters::SmotheringDecayHighWatermark`. -/
  smotheringDecayHighWatermark : ℚ

/-- Modelled from the spec: `SmoothStep` (GameCore/GameMath.h, not among the
translated sources): the standard Hermite smoothstep, clamped to `[0, 1]`. -/
def smoothStep (lo hi x : ℚ) : ℚ :=
  let t := min (max ((x - lo) / (hi - lo)) 0) 1
  t * t * (3 - 2 * t)

/-- The index sequence of the low-frequency scan loop
`for (pointIndex = pointOffset; pointIndex < mShipPointCount;
pointIndex += pointStride)`, for a positive stride. -/
def lowFreqIndices (nShip pointOffset pointStride : ℕ) : List ℕ :=
  (List.range nShip).filter
    (fun i => pointOffset ≤ i ∧ (i - pointOffset) % pointStride = 0)

/-- Accumulator of the low-frequency scan loop: the (possibly already
mutated) combustion-state and decay buffers and the collected
`mIgnitionCandidates` (point index, ignition temperature delta). -/
structure LowFreqScanAccum where
  combustionState : ℕ → CombustionState
  decay : ℕ → ℚ
  ignitionCandidates : List (ℕ × ℚ)

/-- One iteration of the low-frequency scan loop: a `NotBurning` point
satisfying the ignition conditions becomes a candidate with key
`(T - effectiveIgnition) / effectiveIgnition`; a `Burning` point whose
temperature or decay fell below the respective low watermark transitions to
`Extinguishing_Consumed`, otherwise its decay (and its neighbors' decay) is
multiplied by the per-point alpha. -/
def lowFreqScanStep (env : CombustionLowFreqEnv) (acc : LowFreqScanAccum)
    (p : ℕ) : LowFreqScanAccum :=
  let currentState := (acc.combustionState p).state
  if currentState = CombustionStateType.notBurning then
    let effectiveIgnitionTemperature :=
      env.materialIgnitionTemperature p * env.ignitionTemperatureAdjustment
    if env.temperature p
          ≥ effectiveIgnitionTemperature + env.ignitionTemperatureHighWatermark
        ∧ env.isUnderwater p = false
        ∧ env.water p < env.smotheringWaterLowWatermark
        ∧ acc.decay p > env.smotheringDecayHighWatermark then
      { acc with
          ignitionCandidates := acc.ignitionCandidates
            ++ [(p, (env.temperature p - effectiveIgnitionTemperature)
                      / effectiveIgnitionTemperature)] }
    else acc
  else if currentState = CombustionStateType.burning then
    let effectiveIgnitionTemperature :=
      env.materialIgnitionTemperature p * env.ignitionTemperatureAdjustment
    if env.temperature p
          ≤ effectiveIgnitionTemperature + env.ignitionTemperatureLowWatermark
        ∨ acc.decay p < env.smotheringDecayLowWatermark then
      { acc with
          combustionState := Function.update acc.combustionState p
            { acc.combustionState p with
                state := CombustionStateType.extinguishingConsumed } }
    else
      let decayAlpha := env.decayAlpha p
      let decay1 := Function.update acc.decay p (acc.decay p * decayAlpha)
      { acc with
          decay := (env.connectedNeighbors p).foldl
            (fun d q => Function.update d q (d q * decayAlpha)) decay1 }
  else acc

/-- The whole scan phase of `UpdateCombustionLowFrequency`. -/
def lowFreqScan (nShip : ℕ) (env : CombustionLowFreqEnv)
    (pointOffset pointStride : ℕ) (s : CombustionPoints) : LowFreqScanAccum :=
  (lowFreqIndices nShip pointOffset pointStride).foldl (lowFreqScanStep env)
    { combustionState := s.combustionState
      decay := s.decay
      ignitionCandidates := [] }

/-- Embeds `maxPoints`: the number of candidates to ignite,
`min(min(4 + Choose(6), live room under MaxBurningParticles), #candidates)`. -/
def lowFreqMaxPoints (maxBurningParticles : ℕ) (env : CombustionLowFreqEnv)
    (burningPointsSize numCandidates : ℕ) : ℕ :=
  min
    (min (4 + env.chooseDraw)
      (if burningPointsSize < maxBurningParticles then
        maxBurningParticles - burningPointsSize
      else 0))
    numCandidates

/-- The `std::lower_bound` + `insert` of a newly burning point into
`mBurningPoints`, keeping the list ordered by plane id (a new point goes
before other points of the same plane id). -/
def insertByPlaneId (planeId : ℕ → ℕ) (p : ℕ) : List ℕ → List ℕ
  | [] => [p]
  | q :: rest =>
      if planeId q < planeId p then q :: insertByPlaneId planeId p rest
      else p :: q :: rest

/-- Ignition of one candidate: transition to `Developing_1`, set the initial
flame development from the ignition key, draw a personality, derive the
maximum flame development, and insert the point into the burning list. -/
def ignitePoint (env : CombustionLowFreqEnv) (s : CombustionPoints)
    (candidate : ℕ × ℚ) : CombustionPoints :=
  let p := candidate.1
  let flameDevelopment := 1/10 + 1/2 * smoothStep 0 2 candidate.2
  let personality := env.personalityDraw p
  let deltaSizeDueToConnectedSprings :=
    ((env.connectedNeighbors p).length : ℚ) * (1/16)
  { s with
      combustionState := Function.update s.combustionState p
        { state := CombustionStateType.developing1
          flameDevelopment := flameDevelopment
          maxFlameDevelopment :=
            max (1/4 + deltaSizeDueToConnectedSprings + 1/2 * personality)
              flameDevelopment
          personality := personality }
      burningPoints := insertByPlaneId env.planeId p s.burningPoints }

/-- The descending order used on ignition candidates: the source partially
sorts with `std::nth_element` and comparator `key₁ > key₂`; the embedding
realizes its postcondition (every key among the first `maxPoints` entries is
`≥` every key after them) with a full insertion sort. -/
def candidateOrder (a b : ℕ × ℚ) : Prop := b.2 ≤ a.2

instance : DecidableRel candidateOrder := fun a b => by
  unfold candidateOrder; infer_instance

/-- The candidates actually ignited: the top `maxPoints` candidates by
ignition temperature delta. -/
def ignitedCandidates (nShip maxBurningParticles : ℕ)
    (env : CombustionLowFreqEnv) (pointOffset pointStride : ℕ)
    (s : CombustionPoints) : List (ℕ × ℚ) :=
  let scanned := lowFreqScan nShip env pointOffset pointStride s
  (scanned.ignitionCandidates.insertionSort candidateOrder).take
    (lowFreqMaxPoints maxBurningParticles env s.burningPoints.length
      scanned.ignitionCandidates.length)

/-- Embeds `Points::UpdateCombustionLowFrequency`. -/
def updateCombustionLowFrequency (nShip maxBurningParticles : ℕ)
    (env : CombustionLowFreqEnv) (pointOffset pointStride : ℕ)
    (s : CombustionPoints) : CombustionPoints :=
  let scanned := lowFreqScan nShip env pointOffset pointStride s
  (ignitedCandidates nShip maxBurningParticles env pointOffset pointStride
      s).foldl
    (ignitePoint env)
    { combustionState := scanned.combustionState
      decay := scanned.decay
      burningPoints := s.burningPoints }

/-- Read-only inputs of `UpdateCombustionHighFrequency` (its temperature
writes land in the thermal buffer, which is part of the environment of
subsequent passes). -/
structure CombustionHighFreqEnv where
  water : ℕ → ℚ
  isUnderwater : ℕ → Bool
  /-- Embeds `GameParameters::SmotheringWaterHighWatermark`. -/
  smotheringWaterHighWatermark : ℚ

/-- Modelled from the spec: `Points::SmotherCombustion` (declared in the
header, body not among the translated sources): "transition to
Extinguishing(smothered)". -/
def smotherCombustion (s : CombustionPoints) (p : ℕ) : CombustionPoints :=
  { s with
      combustionState := Function.update s.combustionState p
        { s.combustionState p with
            state := CombustionStateType.extinguishingSmothered } }

/-- The development/extinguishing switch at the end of the high-frequency
loop body, removing the point from the burning list when its flame
development reaches `0.02`. -/
def combustionMachineStep (s1 : CombustionPoints) (p : ℕ) : CombustionPoints :=
  let c := s1.combustionState p
  match c.state with
  | CombustionStateType.developing1 =>
      let flameDevelopment := c.flameDevelopment + 21/200 * c.flameDevelopment
      { s1 with
          combustionState := Function.update s1.combustionState p
            { c with
                flameDevelopment := flameDevelopment
                state :=
                  if c.maxFlameDevelopment + 1/5 < flameDevelopment then
                    CombustionStateType.developing2
                  else CombustionStateType.developing1 } }
  | CombustionStateType.developing2 =>
      let extraFlameDevelopment := c.flameDevelopment - c.maxFlameDevelopment
      let extraFlameDevelopment :=
        extraFlameDevelopment - 1/5 * extraFlameDevelopment
      if extraFlameDevelopment < 1/50 then
        { s1 with
            combustionState := Function.update s1.combustionState p
              { c with
                  state := CombustionStateType.burning
                  flameDevelopment := c.maxFlameDevelopment } }
      else
        { s1 with
            combustionState := Function.update s1.combustionState p
              { c with
                  flameDevelopment :=
                    c.maxFlameDevelopment + extraFlameDevelopment } }
  | CombustionStateType.extinguishingConsumed =>
      let flameDevelopment :=
        c.flameDevelopment
          - 1/16 * (c.maxFlameDevelopment - c.flameDevelopment + 1/100)
      if flameDevelopment ≤ 1/50 then
        { s1 with
            combustionState := Function.update s1.combustionState p
              { c with
                  state := CombustionStateType.notBurning
                  flameDevelopment := flameDevelopment }
            burningPoints := s1.burningPoints.erase p }
      else
        { s1 with
            combustionState := Function.update s1.combustionState p
              { c with flameDevelopment := flameDevelopment } }
  | CombustionStateType.extinguishingSmothered =>
      let flameDevelopment :=
        c.flameDevelopment - 3/10 * c.flameDevelopment
      if flameDevelopment ≤ 1/50 then
        { s1 with
            combustionState := Function.update s1.combustionState p
              { c with
                  state := CombustionStateType.notBurning
                  flameDevelopment := flameDevelopment }
            burningPoints := s1.burningPoints.erase p }
      else
        { s1 with
            combustionState := Function.update s1.combustionState p
              { c with flameDevelopment := flameDevelopment } }
  | _ => s1

/-- The per-point body of the high-frequency combustion loop: possibly
smother (the `Burning` branch additionally writes only the temperature
buffer), then run the development/extinguishing state machine. -/
def highFreqStep (env : CombustionHighFreqEnv) (s : CombustionPoints)
    (p : ℕ) : CombustionPoints :=
  let currentState := (s.combustionState p).state
  let s1 :=
    if (currentState = CombustionStateType.developing1
          ∨ currentState = CombustionStateType.developing2
          ∨ currentState = CombustionStateType.burning
          ∨ currentState = CombustionStateType.extinguishingConsumed)
        ∧ (env.isUnderwater p = true
          ∨ env.water p > env.smotheringWaterHighWatermark) then
      smotherCombustion s p
    else
      s
  combustionMachineStep s1 p

/-- Embeds `Points::UpdateCombustionHighFrequency`: the loop over the burning
points (the source iterates the live vector while erasing only the point
being visited; this is embedded as a pass over the list as it stands at loop
entry). -/
def updateCombustionHighFrequency (env : CombustionHighFreqEnv)
    (s : CombustionPoints) : CombustionPoints :=
  s.burningPoints.foldl (highFreqStep env) s

/-- Embeds `Points::OnOrphaned` (src/Game/Points.cpp lines 306-317): a burning
orphan's flame development is re-randomized into `[0.1, 0.14]`. -/
def onOrphaned (s : CombustionPoints) (p : ℕ) (draw : ℚ) : CombustionPoints :=
  if (s.combustionState p).state = CombustionStateType.burning then
    { s with
        combustionState := Function.update s.combustionState p
          { s.combustionState p with flameDevelopment := draw } }
  else s

/-- The reset `mCombustionStateBuffer[pointIndex] = CombustionState();
mDecayBuffer[pointIndex] = 1.0f` performed on an ephemeral slot by the
`CreateEphemeralParticle*` functions (src/Game/Points.cpp lines 122/136,
184/198, 245/259). -/
def resetEphemeralCombustion (s : CombustionPoints) (p : ℕ) :
    CombustionPoints :=
  { s with
      combustionState := Function.update s.combustionState p {}
      decay := Function.update s.decay p 1 }

/-- The states of the combustion subsystem reachable from ship load, under
arbitrary environments, scheduling offsets/strides, random draws, and
arbitrary interference on the decay buffer from the other subsystems that
write it. -/
inductive CombustionReachable (nShip maxBurningParticles : ℕ) :
    CombustionPoints → Prop where
  | init : CombustionReachable nShip maxBurningParticles combustionInit
  | lowFrequency (env : CombustionLowFreqEnv) (pointOffset pointStride : ℕ)
      (s : CombustionPoints) :
      CombustionReachable nShip maxBurningParticles s →
      CombustionReachable nShip maxBurningParticles
        (updateCombustionLowFrequency nShip maxBurningParticles env
          pointOffset pointStride s)
  | highFrequency (env : CombustionHighFreqEnv) (s : CombustionPoints) :
      CombustionReachable nShip maxBurningParticles s →
      CombustionReachable nShip maxBurningParticles
        (updateCombustionHighFrequency env s)
  | orphaned (p : ℕ) (draw : ℚ) (s : CombustionPoints) :
      CombustionReachable nShip maxBurningParticles s →
      CombustionReachable nShip maxBurningParticles (onOrphaned s p draw)
  | ephemeralReset (p : ℕ) (s : CombustionPoints) (h : nShip ≤ p) :
      CombustionReachable nShip maxBurningParticles s →
      CombustionReachable nShip maxBurningParticles
        (resetEphemeralCombustion s p)
  | decayInterference (d : ℕ → ℚ) (s : CombustionPoints) :
      CombustionReachable nShip maxBurningParticles s →
      CombustionReachable nShip maxBurningParticles { s with decay := d }

/-- The number of points (among the `nTotal` points of the store) whose
combustion state is `Developing_1`, `Developing_2` or `Burning`. -/
def activeCombustionCount (nTotal : ℕ) (s : CombustionPoints) : ℕ :=
  ((List.range nTotal).filter
    (fun p => isActiveCombustion (s.combustionState p).state)).length

/-- The burning-list invariant maintained by the combustion passes. -/
def CombustionInvariant (nShip maxBurningParticles : ℕ)
    (s : CombustionPoints) : Prop :=
  s.burningPoints.Nodup
    ∧ (∀ p ∈ s.burningPoints, p < nShip)
    ∧ (∀ p ∈ s.burningPoints,
        (s.combustionState p).state ≠ CombustionStateType.notBurning)
    ∧ (∀ p, isActiveCombustion (s.combustionState p).state = true →
        p ∈ s.burningPoints)
    ∧ s.burningPoints.length ≤ maxBurningParticles

/-! ## Theorems -/

/-- C6: `update_masses` sets, for every live particle `i`,
`current-mass(i) = augmented-material-mass(i) +
min(water-content(i), material-water-volume-fill(i)) · water-density` (the
water-density being `GameParameters::WaterMass` scaled by the density
adjustment parameter) and
`integration-factor(i) = integration-time-coefficient(i) / current-mass(i)`
(both vector components); no other per-particle field is modified. -/
theorem updateMasses_spec (params : MassParams) (pre post : List PointState)
    (p : PointState) :
    updateMasses params (pre ++ p :: post)
      = updateMasses params pre
        ++ { p with
              mass := p.augmentedMaterialMass
                + min p.water p.materialWaterVolumeFill
                  * (params.waterMass * params.waterDensityAdjustment)
              integrationFactor :=
                (p.integrationFactorTimeCoefficient
                  / (p.augmentedMaterialMass
                    + min p.water p.materialWaterVolumeFill
                      * (params.waterMass * params.waterDensityAdjustment)),
                 p.integrationFactorTimeCoefficient
                  / (p.augmentedMaterialMass
                    + min p.water p.materialWaterVolumeFill
                      * (params.waterMass * params.waterDensityAdjustment))) }
          :: updateMasses params post := by
  simp [updateMasses, updateMassesOne]

/-- C7: for every particle index, `Detach` first invokes the detach handler
and then writes the supplied velocity into the particle's velocity iff the
particle is not pinned (relative to the handler-transformed store); a pinned
particle receives no write at all from `Detach` itself; `Detach` is total
and never changes the number of particles. -/
theorem detach_spec
    (handler : Option (List PointState → List PointState))
    (v : ℚ × ℚ) (points : List PointState)
    (pre post : List PointState) (p : PointState)
    (hdecomp : applyDetachHandler handler points = pre ++ p :: post) :
    (p.isPinned = false →
        detach handler pre.length v points
          = pre ++ { p with velocity := v } :: post)
      ∧ (p.isPinned = true →
          detach handler pre.length v points = pre ++ p :: post)
      ∧ (detach handler pre.length v points).length
          = (applyDetachHandler handler points).length := by
  have hsome : (applyDetachHandler handler points)[pre.length]? = some p := by
    rw [hdecomp]
    rw [List.getElem?_append_right (Nat.le_refl _)]
    simp
  unfold detach
  rw [hsome]
  by_cases hpin : p.isPinned
  · simp [hpin, hdecomp]
  · simp only [Bool.not_eq_true] at hpin
    simp [hpin, hdecomp, List.set_append]

/-- A concrete unpinned particle for the `Detach` witness. -/
def detachSamplePoint : PointState :=
  { augmentedMaterialMass := 5, water := 0, materialWaterVolumeFill := 1,
    integrationFactorTimeCoefficient := 7, mass := 5,
    integrationFactor := (0, 0), position := (0, 0), velocity := (0, 0),
    temperature := 293, decay := 1, isPinned := false }

/-- Witness for `detach_spec`: no handler, a single unpinned particle gets
the velocity imprinted. -/
theorem detach_spec_witness :
    detach Option.none (List.length ([] : List PointState)) (1, 2)
        [detachSamplePoint]
        = [] ++ { detachSamplePoint with velocity := (1, 2) } :: []
      ∧ (detach Option.none (List.length ([] : List PointState)) (1, 2)
          [detachSamplePoint]).length
          = (applyDetachHandler Option.none [detachSamplePoint]).length :=
  ⟨(detach_spec Option.none (1, 2) [detachSamplePoint] [] []
      detachSamplePoint rfl).1 rfl,
   (detach_spec Option.none (1, 2) [detachSamplePoint] [] []
      detachSamplePoint rfl).2.2⟩

/-- C9: in the semi-Lagrangian advection of both fields, for every cell and
arbitrary (finite) back-traced position, the clamped index has integral part
in `[0, SWETotalSamples - 1]` — so the two interpolation reads at the
integral part and at the integral part plus one fall within the allocated
buffer of `SWETotalSamples + 1` cells — and the interpolation fraction lies
in `[0, 1)`. -/
theorem advection_backtrace_bounds (n : ℕ) (hn : 1 ≤ n) (prevCellIndex : ℚ) :
    0 ≤ prevCellIndexIntegral n prevCellIndex
      ∧ prevCellIndexIntegral n prevCellIndex ≤ (n : ℤ) - 1
      ∧ (prevCellIndexIntegral n prevCellIndex).toNat + 1 ≤ n
      ∧ 0 ≤ prevCellIndexFractional n prevCellIndex
      ∧ prevCellIndexFractional n prevCellIndex < 1 := by
  have hx0 : 0 ≤ prevCellIndexClamped n prevCellIndex := by
    have h1 : (0 : ℚ) ≤ max 0 prevCellIndex := le_max_left 0 prevCellIndex
    have h2 : (0 : ℚ) ≤ (n : ℚ) - 1 := by
      have : (1 : ℚ) ≤ (n : ℚ) := by exact_mod_cast hn
      linarith
    exact le_min h1 h2
  have hx1 : prevCellIndexClamped n prevCellIndex ≤ (n : ℚ) - 1 :=
    min_le_right _ _
  have htrunc : prevCellIndexIntegral n prevCellIndex
      = ⌊prevCellIndexClamped n prevCellIndex⌋ := by
    unfold prevCellIndexIntegral fastTruncateInt32
    rw [if_neg (not_lt.mpr hx0)]
  have hfl0 : 0 ≤ ⌊prevCellIndexClamped n prevCellIndex⌋ :=
    Int.floor_nonneg.mpr hx0
  have hfl1 : ⌊prevCellIndexClamped n prevCellIndex⌋ ≤ (n : ℤ) - 1 := by
    have : prevCellIndexClamped n prevCellIndex ≤ (((n : ℤ) - 1 : ℤ) : ℚ) := by
      push_cast
      exact hx1
    calc ⌊prevCellIndexClamped n prevCellIndex⌋
        ≤ ⌊(((n : ℤ) - 1 : ℤ) : ℚ)⌋ := Int.floor_le_floor this
      _ = (n : ℤ) - 1 := Int.floor_intCast _
  have hfrac : prevCellIndexFractional n prevCellIndex
      = Int.fract (prevCellIndexClamped n prevCellIndex) := by
    unfold prevCellIndexFractional Int.fract
    rw [htrunc]
  refine ⟨htrunc ▸ hfl0, htrunc ▸ hfl1, ?_, ?_, ?_⟩
  · rw [htrunc]
    omega
  · rw [hfrac]
    exact Int.fract_nonneg _
  · rw [hfrac]
    exact Int.fract_lt_one _

/-- Witness for `advection_backtrace_bounds` at `n = 3`, back-traced index
`7/2`. -/
theorem advection_backtrace_bounds_witness :
    0 ≤ prevCellIndexIntegral 3 (7/2)
      ∧ prevCellIndexIntegral 3 (7/2) ≤ (3 : ℤ) - 1
      ∧ (prevCellIndexIntegral 3 (7/2)).toNat + 1 ≤ 3
      ∧ 0 ≤ prevCellIndexFractional 3 (7/2)
      ∧ prevCellIndexFractional 3 (7/2) < 1 :=
  advection_backtrace_bounds 3 (by norm_num) (7/2)

/-- C5: after every completed ocean-surface update (including any
external-wave write made during that update), the current height field
mirrors its boundary cells (`H[0] = H[1]`, `H[n-1] = H[n-2]`) and the
current velocity field is exactly `0` at the boundary cells; moreover the
boundary-velocity invariant holds at construction and is preserved by the
update, so this holds at every tick. -/
theorem oceanSurface_boundary_spec (n : ℕ) (dt dx g : ℚ)
    (ext : Option (ℕ × ℚ)) (s : SWEFields)
    (hn : 3 ≤ n) (hs : VelocityBoundaryZero n s) :
    VelocityBoundaryZero n oceanSurfaceInit
      ∧ (oceanSurfaceUpdate n dt dx g ext s).hCur 0
          = (oceanSurfaceUpdate n dt dx g ext s).hCur 1
      ∧ (oceanSurfaceUpdate n dt dx g ext s).hCur (n - 1)
          = (oceanSurfaceUpdate n dt dx g ext s).hCur (n - 1 - 1)
      ∧ (oceanSurfaceUpdate n dt dx g ext s).vCur 0 = 0
      ∧ (oceanSurfaceUpdate n dt dx g ext s).vCur (n - 1) = 0
      ∧ VelocityBoundaryZero n (oceanSurfaceUpdate n dt dx g ext s) := by
  obtain ⟨hc0, hc1, hx0, hx1⟩ := hs
  have hinit : VelocityBoundaryZero n oceanSurfaceInit := by
    refine ⟨rfl, rfl, rfl, rfl⟩
  -- the interior condition fails at both boundary cells
  have hcond0 : ¬(sweBoundaryConditionsSamples ≤ 0
      ∧ 0 < n - sweBoundaryConditionsSamples) := by
    simp [sweBoundaryConditionsSamples]
  have hcondn : ¬(sweBoundaryConditionsSamples ≤ n - 1
      ∧ n - 1 < n - sweBoundaryConditionsSamples) := by
    simp only [sweBoundaryConditionsSamples]
    omega
  -- the two boundary cells of the freshly computed velocity field are
  -- untouched, hence equal to the incoming next-buffer boundary cells
  have hvAdv0 : advectVelocityField n dt dx s.vCur s.vNxt 0 = 0 := by
    rw [advectVelocityField, if_neg hcond0]
    exact hx0
  have hvAdvn : advectVelocityField n dt dx s.vCur s.vNxt (n - 1) = 0 := by
    rw [advectVelocityField, if_neg hcondn]
    exact hx1
  have hvUpd0 : ∀ h,
      updateVelocityField n dt dx g h
        (advectVelocityField n dt dx s.vCur s.vNxt) 0 = 0 := by
    intro h
    rw [updateVelocityField, if_neg hcond0]
    exact hvAdv0
  have hvUpdn : ∀ h,
      updateVelocityField n dt dx g h
        (advectVelocityField n dt dx s.vCur s.vNxt) (n - 1) = 0 := by
    intro h
    rw [updateVelocityField, if_neg hcondn]
    exact hvAdvn
  -- the height mirror produced by the boundary-condition writes
  have hmirror : ∀ h : ℕ → ℚ,
      applyHeightBoundaryConditions n h 0 = applyHeightBoundaryConditions n h 1
        ∧ applyHeightBoundaryConditions n h (n - 1)
            = applyHeightBoundaryConditions n h (n - 1 - 1) := by
    intro h
    unfold applyHeightBoundaryConditions
    constructor
    · rw [Function.update_noteq (by omega : (0 : ℕ) ≠ n - 1)]
      rw [Function.update_noteq (by omega : (1 : ℕ) ≠ n - 1)]
      rw [Function.update_same]
      rw [Function.update_noteq (by omega : (1 : ℕ) ≠ 0)]
    · rw [Function.update_same]
      rw [Function.update_noteq (by omega : n - 1 - 1 ≠ n - 1)]
  refine ⟨hinit, ?_⟩
  simp only [oceanSurfaceUpdate, VelocityBoundaryZero]
  exact ⟨(hmirror _).1, (hmirror _).2, hvUpd0 _, hvUpdn _, hvUpd0 _, hvUpdn _,
    hc0, hc1⟩


/-- Witness for `oceanSurface_boundary_spec` at `n = 3` on the initial
state. -/
theorem oceanSurface_boundary_spec_witness :
    VelocityBoundaryZero 3 oceanSurfaceInit
      ∧ (oceanSurfaceUpdate 3 1 1 1 Option.none oceanSurfaceInit).hCur 0
          = (oceanSurfaceUpdate 3 1 1 1 Option.none oceanSurfaceInit).hCur 1
      ∧ (oceanSurfaceUpdate 3 1 1 1 Option.none oceanSurfaceInit).hCur (3 - 1)
          = (oceanSurfaceUpdate 3 1 1 1 Option.none oceanSurfaceInit).hCur
              (3 - 1 - 1)
      ∧ (oceanSurfaceUpdate 3 1 1 1 Option.none oceanSurfaceInit).vCur 0 = 0
      ∧ (oceanSurfaceUpdate 3 1 1 1 Option.none oceanSurfaceInit).vCur (3 - 1)
          = 0
      ∧ VelocityBoundaryZero 3
          (oceanSurfaceUpdate 3 1 1 1 Option.none oceanSurfaceInit) :=
  oceanSurface_boundary_spec 3 1 1 1 Option.none oceanSurfaceInit
    (by norm_num) ⟨rfl, rfl, rfl, rfl⟩

/-! ### Ephemeral allocator lemmas -/

/-- Every visited index lies in the ephemeral region. -/
theorem visitOrder_subset_region {nShip nAll searchStart : ℕ}
    (hlt : nShip < nAll) :
    ∀ q ∈ visitOrder nShip nAll searchStart, nShip ≤ q ∧ q < nAll := by
  intro q hq
  unfold visitOrder at hq
  obtain ⟨k, _, rfl⟩ := List.mem_map.mp hq
  have hm : 0 < nAll - nShip := by omega
  have := Nat.mod_lt (searchStart - nShip + k) hm
  omega

/-- Every index of the ephemeral region is visited. -/
theorem mem_visitOrder {nShip nAll searchStart : ℕ} {p : ℕ}
    (hp1 : nShip ≤ p) (hp2 : p < nAll) :
    p ∈ visitOrder nShip nAll searchStart := by
  unfold visitOrder
  set m := nAll - nShip with hm
  set off := searchStart - nShip with hoff
  set t := p - nShip with ht
  have hmpos : 0 < m := by omega
  have htm : t < m := by omega
  set u := off % m with hu
  have hum : u < m := Nat.mod_lt _ hmpos
  refine List.mem_map.mpr ⟨(t + m - u) % m, List.mem_range.mpr (Nat.mod_lt _ hmpos), ?_⟩
  have h1 : (off + (t + m - u) % m) % m = (off % m + (t + m - u) % m) % m :=
    (Nat.mod_add_mod off m ((t + m - u) % m)).symm
  have h2 : (off % m + (t + m - u) % m) % m = (off % m + (t + m - u)) % m :=
    Nat.add_mod_mod _ _ _
  have h3 : off % m + (t + m - u) = t + m := by
    omega
  have h4 : (t + m) % m = t := by
    rw [Nat.add_mod_right]
    exact Nat.mod_eq_of_lt htm
  have : (off + (t + m - u) % m) % m = t := by
    rw [h1, h2, ← hu, h3, h4]
  rw [this]
  omega

/-- The visit order is nonempty when the ephemeral region is. -/
theorem visitOrder_ne_nil {nShip nAll searchStart : ℕ} (hlt : nShip < nAll) :
    visitOrder nShip nAll searchStart ≠ [] := by
  unfold visitOrder
  simp only [ne_eq, List.map_eq_nil_iff, List.range_eq_nil]
  omega

/-- A successful scan returns a visited free slot. -/
theorem findFreeScan_some {types : ℕ → EphemeralType} {starts : ℕ → ℚ}
    {now : ℚ} :
    ∀ {l : List ℕ} {oldest : ℕ} {best : ℚ} {p o : ℕ},
      findFreeScan types starts now l oldest best = (some p, o) →
      p ∈ l ∧ types p = EphemeralType.none := by
  intro l
  induction l with
  | nil =>
      intro oldest best p o h
      simp [findFreeScan] at h
  | cons q rest ih =>
      intro oldest best p o h
      simp only [findFreeScan] at h
      by_cases hq : types q = EphemeralType.none
      · rw [if_pos hq] at h
        obtain ⟨h1, h2⟩ := Prod.mk.injEq .. ▸ h
        obtain rfl : q = p := Option.some.inj (by simpa using congrArg Prod.fst h)
        exact ⟨List.mem_cons_self _ _, hq⟩
      · rw [if_neg hq] at h
        by_cases hlife : best ≤ now - starts q
        · rw [if_pos hlife] at h
          obtain ⟨hmem, hfree⟩ := ih h
          exact ⟨List.mem_cons_of_mem _ hmem, hfree⟩
        · rw [if_neg hlife] at h
          obtain ⟨hmem, hfree⟩ := ih h
          exact ⟨List.mem_cons_of_mem _ hmem, hfree⟩

/-- A failed scan saw no free slot, and its "oldest" result is either the
initial accumulator (when every visited lifetime was below the initial
threshold) or a visited slot of maximal lifetime. -/
theorem findFreeScan_none {types : ℕ → EphemeralType} {starts : ℕ → ℚ}
    {now : ℚ} :
    ∀ {l : List ℕ} {oldest : ℕ} {best : ℚ} {o : ℕ},
      findFreeScan types starts now l oldest best = (Option.none, o) →
      (∀ p ∈ l, types p ≠ EphemeralType.none)
        ∧ ((o = oldest ∧ ∀ q ∈ l, now - starts q < best)
            ∨ (o ∈ l ∧ best ≤ now - starts o
                ∧ ∀ q ∈ l, now - starts q ≤ now - starts o)) := by
  intro l
  induction l with
  | nil =>
      intro oldest best o h
      simp only [findFreeScan, Prod.mk.injEq] at h
      exact ⟨by simp, Or.inl ⟨h.2.symm, by simp⟩⟩
  | cons q rest ih =>
      intro oldest best o h
      simp only [findFreeScan] at h
      by_cases hq : types q = EphemeralType.none
      · rw [if_pos hq] at h
        exact absurd (congrArg Prod.fst h) (by simp)
      · rw [if_neg hq] at h
        by_cases hlife : best ≤ now - starts q
        · rw [if_pos hlife] at h
          obtain ⟨hnofree, hrest⟩ := ih h
          refine ⟨?_, ?_⟩
          · intro p hp
            rcases List.mem_cons.mp hp with rfl | hp
            · exact hq
            · exact hnofree p hp
          · rcases hrest with ⟨rfl, hall⟩ | ⟨hmem, hbest, hall⟩
            · refine Or.inr ⟨List.mem_cons_self _ _, hlife, ?_⟩
              intro r hr
              rcases List.mem_cons.mp hr with rfl | hr
              · exact le_refl _
              · exact le_of_lt (hall r hr)
            · refine Or.inr ⟨List.mem_cons_of_mem _ hmem, le_trans hlife hbest, ?_⟩
              intro r hr
              rcases List.mem_cons.mp hr with rfl | hr
              · exact hbest
              · exact hall r hr
        · rw [if_neg hlife] at h
          obtain ⟨hnofree, hrest⟩ := ih h
          push_neg at hlife
          refine ⟨?_, ?_⟩
          · intro p hp
            rcases List.mem_cons.mp hp with rfl | hp
            · exact hq
            · exact hnofree p hp
          · rcases hrest with ⟨rfl, hall⟩ | ⟨hmem, hbest, hall⟩
            · refine Or.inl ⟨rfl, ?_⟩
              intro r hr
              rcases List.mem_cons.mp hr with rfl | hr
              · exact hlife
              · exact hall r hr
            · refine Or.inr ⟨List.mem_cons_of_mem _ hmem, hbest, ?_⟩
              intro r hr
              rcases List.mem_cons.mp hr with rfl | hr
              · exact le_of_lt (lt_of_lt_of_le hlife hbest)
              · exact hall r hr

/-- C3: for every allocation request on the ephemeral pool: when some slot
of the ephemeral region `[shipPointCount, allPointCount)` is free
(`EphemeralType::None`), an index of such a free slot is returned; when no
slot is free and `force = false`, the allocator returns the none-index
leaving the store unchanged, and the air-bubble spawner drops the spawn with
no state change; when no slot is free and `force = true`, the allocator
returns an occupied slot with the greatest `now - startTime` among all
ephemeral slots. -/
theorem findFreeEphemeralParticle_spec (st : EphemeralPoints) (now : ℚ)
    (force : Bool) (hlt : st.shipPointCount < st.allPointCount) :
    ((∃ p, st.shipPointCount ≤ p ∧ p < st.allPointCount
        ∧ st.ephemeralType p = EphemeralType.none) →
      st.shipPointCount ≤ (findFreeEphemeralParticle st now force).1
        ∧ (findFreeEphemeralParticle st now force).1 < st.allPointCount
        ∧ st.ephemeralType (findFreeEphemeralParticle st now force).1
            = EphemeralType.none)
    ∧ ((∀ p, st.shipPointCount ≤ p → p < st.allPointCount →
          st.ephemeralType p ≠ EphemeralType.none) →
        findFreeEphemeralParticle st now false = (noneElementIndex, st)
          ∧ createEphemeralParticleAirBubble st now = st)
    ∧ ((∀ p, st.shipPointCount ≤ p → p < st.allPointCount →
          st.ephemeralType p ≠ EphemeralType.none) →
        (∀ p, st.shipPointCount ≤ p → p < st.allPointCount →
          st.ephemeralStartTime p ≤ now) →
        st.shipPointCount ≤ (findFreeEphemeralParticle st now true).1
          ∧ (findFreeEphemeralParticle st now true).1 < st.allPointCount
          ∧ st.ephemeralType (findFreeEphemeralParticle st now true).1
              ≠ EphemeralType.none
          ∧ ∀ q, st.shipPointCount ≤ q → q < st.allPointCount →
              now - st.ephemeralStartTime q
                ≤ now - st.ephemeralStartTime
                    (findFreeEphemeralParticle st now true).1) := by
  rcases hres : findFreeScan st.ephemeralType st.ephemeralStartTime now
      (visitOrder st.shipPointCount st.allPointCount
        st.freeEphemeralParticleSearchStartIndex)
      noneElementIndex 0 with ⟨r, o⟩
  refine ⟨?_, ?_, ?_⟩
  · rintro ⟨p, hp1, hp2, hfree⟩
    cases r with
    | none =>
        exact absurd hfree
          ((findFreeScan_none hres).1 p (mem_visitOrder hp1 hp2))
    | some q =>
        obtain ⟨hqmem, hqfree⟩ := findFreeScan_some hres
        obtain ⟨hq1, hq2⟩ := visitOrder_subset_region hlt q hqmem
        have h1 : (findFreeEphemeralParticle st now force).1 = q := by
          simp [findFreeEphemeralParticle, hres]
        rw [h1]
        exact ⟨hq1, hq2, hqfree⟩
  · intro hnofree
    cases r with
    | some q =>
        obtain ⟨hqmem, hqfree⟩ := findFreeScan_some hres
        obtain ⟨hq1, hq2⟩ := visitOrder_subset_region hlt q hqmem
        exact absurd hqfree (hnofree q hq1 hq2)
    | none =>
        have h1 : findFreeEphemeralParticle st now false = (noneElementIndex, st) := by
          simp [findFreeEphemeralParticle, hres]
        refine ⟨h1, ?_⟩
        unfold createEphemeralParticleAirBubble
        rw [h1]
        simp
  · intro hnofree hstarts
    cases r with
    | some q =>
        obtain ⟨hqmem, hqfree⟩ := findFreeScan_some hres
        obtain ⟨hq1, hq2⟩ := visitOrder_subset_region hlt q hqmem
        exact absurd hqfree (hnofree q hq1 hq2)
    | none =>
        obtain ⟨hnf, hdisj⟩ := findFreeScan_none hres
        obtain ⟨q₀, hq₀⟩ := List.exists_mem_of_ne_nil _
          (@visitOrder_ne_nil st.shipPointCount st.allPointCount
            st.freeEphemeralParticleSearchStartIndex hlt)
        obtain ⟨hq₀1, hq₀2⟩ := visitOrder_subset_region hlt q₀ hq₀
        rcases hdisj with ⟨_, hall⟩ | ⟨hmem, _, hall⟩
        · have h1 : now - st.ephemeralStartTime q₀ < 0 := hall q₀ hq₀
          have h2 : st.ephemeralStartTime q₀ ≤ now := hstarts q₀ hq₀1 hq₀2
          linarith
        · obtain ⟨ho1, ho2⟩ := visitOrder_subset_region hlt o hmem
          have h1 : (findFreeEphemeralParticle st now true).1 = o := by
            simp [findFreeEphemeralParticle, hres]
          rw [h1]
          refine ⟨ho1, ho2, hnf o hmem, ?_⟩
          intro q hq1 hq2
          exact hall q (mem_visitOrder hq1 hq2)

/-- A concrete two-ephemeral-slot pool (ship region `[0, 1)`, ephemeral
region `[1, 3)`) with slot 1 occupied and slot 2 free. -/
def ephSampleState : EphemeralPoints :=
  { shipPointCount := 1
    allPointCount := 3
    ephemeralType :=
      fun q => if q = 1 then EphemeralType.debris else EphemeralType.none
    ephemeralStartTime := fun _ => 0
    freeEphemeralParticleSearchStartIndex := 1 }

/-- Witness for `findFreeEphemeralParticle_spec` on `ephSampleState`: since
slot 2 is free, the allocator returns a free in-region slot. -/
theorem findFreeEphemeralParticle_spec_witness :
    ephSampleState.shipPointCount
        ≤ (findFreeEphemeralParticle ephSampleState 5 false).1
      ∧ (findFreeEphemeralParticle ephSampleState 5 false).1
          < ephSampleState.allPointCount
      ∧ ephSampleState.ephemeralType
          (findFreeEphemeralParticle ephSampleState 5 false).1
          = EphemeralType.none :=
  (findFreeEphemeralParticle_spec ephSampleState 5 false
      (by simp [ephSampleState])).1
    ⟨2, by simp [ephSampleState], by simp [ephSampleState],
      by simp [ephSampleState]⟩

/-- A sequence of allocation requests (`now`, `force`) against the pool. -/
def allocationSequence (st : EphemeralPoints) : List (ℚ × Bool) → EphemeralPoints
  | [] => st
  | r :: rest => allocationSequence (findFreeEphemeralParticle st r.1 r.2).2 rest

/-- Allocation touches no field but the search-start index. -/
theorem findFree_preserves_fields (st : EphemeralPoints) (now : ℚ)
    (force : Bool) :
    (findFreeEphemeralParticle st now force).2.shipPointCount
        = st.shipPointCount
      ∧ (findFreeEphemeralParticle st now force).2.allPointCount
          = st.allPointCount
      ∧ (findFreeEphemeralParticle st now force).2.ephemeralType
          = st.ephemeralType
      ∧ (findFreeEphemeralParticle st now force).2.ephemeralStartTime
          = st.ephemeralStartTime := by
  rcases hres : findFreeScan st.ephemeralType st.ephemeralStartTime now
      (visitOrder st.shipPointCount st.allPointCount
        st.freeEphemeralParticleSearchStartIndex)
      noneElementIndex 0 with ⟨r, o⟩
  cases r with
  | none =>
      cases force <;> simp [findFreeEphemeralParticle, hres]
  | some q =>
      simp [findFreeEphemeralParticle, hres]

/-- One allocation preserves the search-start invariant. -/
theorem findFree_searchStart_invariant (st : EphemeralPoints) (now : ℚ)
    (force : Bool)
    (hlt : st.shipPointCount < st.allPointCount)
    (h32 : st.allPointCount < 2 ^ 32)
    (hInv : st.shipPointCount ≤ st.freeEphemeralParticleSearchStartIndex
      ∧ st.freeEphemeralParticleSearchStartIndex < st.allPointCount)
    (hstarts : force = true →
      ∀ p, st.shipPointCount ≤ p → p < st.allPointCount →
        st.ephemeralStartTime p ≤ now) :
    st.shipPointCount
        ≤ (findFreeEphemeralParticle st now force).2.freeEphemeralParticleSearchStartIndex
      ∧ (findFreeEphemeralParticle st now force).2.freeEphemeralParticleSearchStartIndex
          < st.allPointCount := by
  rcases hres : findFreeScan st.ephemeralType st.ephemeralStartTime now
      (visitOrder st.shipPointCount st.allPointCount
        st.freeEphemeralParticleSearchStartIndex)
      noneElementIndex 0 with ⟨r, o⟩
  cases r with
  | some q =>
      obtain ⟨hqmem, _⟩ := findFreeScan_some hres
      obtain ⟨hq1, hq2⟩ := visitOrder_subset_region hlt q hqmem
      have hmod : (q + 1) % 2 ^ 32 = q + 1 := Nat.mod_eq_of_lt (by omega)
      have h1 : (findFreeEphemeralParticle st now force).2.freeEphemeralParticleSearchStartIndex
          = wrapSearchStart st.shipPointCount st.allPointCount ((q + 1) % 2 ^ 32) := by
        simp [findFreeEphemeralParticle, hres]
      rw [h1, hmod]
      unfold wrapSearchStart
      split <;> omega
  | none =>
      cases force with
      | false =>
          have h1 : (findFreeEphemeralParticle st now false).2 = st := by
            simp [findFreeEphemeralParticle, hres]
          rw [h1]
          exact hInv
      | true =>
          obtain ⟨hnf, hdisj⟩ := findFreeScan_none hres
          rcases hdisj with ⟨_, hall⟩ | ⟨hmem, _, _⟩
          · obtain ⟨q₀, hq₀⟩ := List.exists_mem_of_ne_nil _
              (@visitOrder_ne_nil st.shipPointCount st.allPointCount
                st.freeEphemeralParticleSearchStartIndex hlt)
            obtain ⟨hq₀1, hq₀2⟩ := visitOrder_subset_region hlt q₀ hq₀
            have h1 : now - st.ephemeralStartTime q₀ < 0 := hall q₀ hq₀
            have h2 : st.ephemeralStartTime q₀ ≤ now := hstarts rfl q₀ hq₀1 hq₀2
            linarith
          · obtain ⟨ho1, ho2⟩ := visitOrder_subset_region hlt o hmem
            have hmod : (o + 1) % 2 ^ 32 = o + 1 := Nat.mod_eq_of_lt (by omega)
            have h1 : (findFreeEphemeralParticle st now true).2.freeEphemeralParticleSearchStartIndex
                = wrapSearchStart st.shipPointCount st.allPointCount
                    ((o + 1) % 2 ^ 32) := by
              simp [findFreeEphemeralParticle, hres]
            rw [h1, hmod]
            unfold wrapSearchStart
            split <;> omega

/-- C10: the free-slot search start index always lies in the ephemeral
region: for every sequence of allocation requests (with or without `force`,
each issued at a time no earlier than the recorded start times),
`shipPointCount ≤ searchStartIndex < allPointCount` holds before and after
each allocation. -/
theorem ephemeral_searchStart_region_invariant (st : EphemeralPoints)
    (reqs : List (ℚ × Bool))
    (hlt : st.shipPointCount < st.allPointCount)
    (h32 : st.allPointCount < 2 ^ 32)
    (hInv : st.shipPointCount ≤ st.freeEphemeralParticleSearchStartIndex
      ∧ st.freeEphemeralParticleSearchStartIndex < st.allPointCount)
    (hstarts : ∀ r ∈ reqs, r.2 = true →
      ∀ p, st.shipPointCount ≤ p → p < st.allPointCount →
        st.ephemeralStartTime p ≤ r.1) :
    ∀ pre post : List (ℚ × Bool), reqs = pre ++ post →
      (allocationSequence st pre).shipPointCount
          ≤ (allocationSequence st pre).freeEphemeralParticleSearchStartIndex
        ∧ (allocationSequence st pre).freeEphemeralParticleSearchStartIndex
            < (allocationSequence st pre).allPointCount := by
  -- strengthen: the allocation sequence also preserves the other fields
  suffices h : ∀ (pre : List (ℚ × Bool)) (st : EphemeralPoints),
      st.shipPointCount < st.allPointCount →
      st.allPointCount < 2 ^ 32 →
      (st.shipPointCount ≤ st.freeEphemeralParticleSearchStartIndex
        ∧ st.freeEphemeralParticleSearchStartIndex < st.allPointCount) →
      (∀ r ∈ pre, r.2 = true →
        ∀ p, st.shipPointCount ≤ p → p < st.allPointCount →
          st.ephemeralStartTime p ≤ r.1) →
      (allocationSequence st pre).shipPointCount = st.shipPointCount
        ∧ (allocationSequence st pre).allPointCount = st.allPointCount
        ∧ ((allocationSequence st pre).shipPointCount
            ≤ (allocationSequence st pre).freeEphemeralParticleSearchStartIndex
          ∧ (allocationSequence st pre).freeEphemeralParticleSearchStartIndex
              < (allocationSequence st pre).allPointCount) by
    intro pre post hsplit
    refine (h pre st hlt h32 hInv ?_).2.2
    intro r hr
    exact hstarts r (hsplit ▸ List.mem_append_left post hr)
  intro pre
  induction pre with
  | nil =>
      intro st hlt h32 hInv _
      exact ⟨rfl, rfl, hInv⟩
  | cons r rest ih =>
      intro st hlt h32 hInv hstarts
      obtain ⟨hship, hall, htypes, hstartsEq⟩ :=
        findFree_preserves_fields st r.1 r.2
      have hstep := findFree_searchStart_invariant st r.1 r.2 hlt h32 hInv
        (fun hf => hstarts r (List.mem_cons_self r rest) hf)
      have hrec := ih (findFreeEphemeralParticle st r.1 r.2).2
        (by rw [hship, hall]; exact hlt)
        (by rw [hall]; exact h32)
        (by rw [hship, hall]; exact hstep)
        (by
          intro r' hr' hf p hp1 hp2
          rw [hstartsEq]
          exact hstarts r' (List.mem_cons_of_mem r hr') hf p
            (by rw [hship] at hp1; exact hp1)
            (by rw [hall] at hp2; exact hp2))
      unfold allocationSequence
      refine ⟨?_, ?_, hrec.2.2⟩
      · rw [hrec.1, hship]
      · rw [hrec.2.1, hall]

/-- Witness for `ephemeral_searchStart_region_invariant`: one forced and one
unforced request on the sample pool. -/
theorem ephemeral_searchStart_region_invariant_witness :
    (allocationSequence ephSampleState [(5, true)]).shipPointCount
        ≤ (allocationSequence ephSampleState
            [(5, true)]).freeEphemeralParticleSearchStartIndex
      ∧ (allocationSequence ephSampleState
            [(5, true)]).freeEphemeralParticleSearchStartIndex
          < (allocationSequence ephSampleState [(5, true)]).allPointCount :=
  ephemeral_searchStart_region_invariant ephSampleState [(5, true), (6, false)]
    (by simp [ephSampleState]) (by simp [ephSampleState])
    (by simp [ephSampleState])
    (by
      intro r hr _ p _ _
      show (0 : ℚ) ≤ r.1
      rcases List.mem_cons.mp hr with rfl | hr
      · norm_num
      · rcases List.mem_cons.mp hr with rfl | hr
        · norm_num
        · simp at hr)
    [(5, true)] [(6, false)] rfl

/-- A concrete paused controller state with one queued event. -/
def pausedSampleState : GameControllerState ℕ ℕ ℕ :=
  { isPaused := true
    isMoveToolEngaged := false
    smootherStates := 0
    world := 0
    pendingEvents := [7]
    flushedEvents := []
    wallClockPaused := true }

/-- C4 counterexample: while paused, a game iteration neither processes the
parameter smoothers nor flushes the queued events — `RunGameIteration`
guards the whole of `InternalUpdate` (smoothers, world update, flush) behind
`!mIsPaused`, contradicting the claim that smoothers are still processed and
events still flushed. -/
theorem runGameIteration_paused_counterexample :
    ¬((runGameIterationUpdatePhase Nat.succ (fun w => (w + 1, ([] : List ℕ)))
          pausedSampleState).smootherStates
        = Nat.succ pausedSampleState.smootherStates
      ∧ (runGameIterationUpdatePhase Nat.succ (fun w => (w + 1, ([] : List ℕ)))
          pausedSampleState).pendingEvents = []) := by
  intro h
  have h1 : runGameIterationUpdatePhase Nat.succ
      (fun w => (w + 1, ([] : List ℕ))) pausedSampleState
      = pausedSampleState := by
    simp [runGameIterationUpdatePhase, pausedSampleState]
  rw [h1] at h
  simp [pausedSampleState] at h

/-- C4 (amended): while the game is paused (or the move tool is engaged), a
game iteration skips the entire internal update — the world update, the
parameter smoothers and the event flush alike — leaving the tracked state
unchanged; simulation time is frozen because `SetPaused` pauses the game
wall clock; when neither flag is set, the iteration runs the full internal
update (smoothers, world update, event flush). -/
theorem runGameIteration_paused_spec {W S E : Type}
    (smootherUpdate : S → S) (worldUpdate : W → W × List E)
    (st : GameControllerState W S E) (b : Bool) :
    (st.isPaused = true →
        runGameIterationUpdatePhase smootherUpdate worldUpdate st = st)
      ∧ (st.isMoveToolEngaged = true →
          runGameIterationUpdatePhase smootherUpdate worldUpdate st = st)
      ∧ (setPaused b st).wallClockPaused = b
      ∧ (setPaused b st).isPaused = b
      ∧ (st.isPaused = false → st.isMoveToolEngaged = false →
          runGameIterationUpdatePhase smootherUpdate worldUpdate st
            = internalUpdate smootherUpdate worldUpdate st) := by
  refine ⟨?_, ?_, rfl, rfl, ?_⟩
  · intro h
    simp [runGameIterationUpdatePhase, h]
  · intro h
    simp [runGameIterationUpdatePhase, h]
  · intro h1 h2
    simp [runGameIterationUpdatePhase, h1, h2]

/-- Witness for `runGameIteration_paused_spec` on the paused sample state:
the theorem applies with the pause hypothesis discharged, and the clock is
frozen. -/
theorem runGameIteration_paused_spec_witness :
    runGameIterationUpdatePhase Nat.succ (fun w => (w + 1, ([] : List ℕ)))
        pausedSampleState = pausedSampleState
      ∧ (setPaused true pausedSampleState).wallClockPaused = true :=
  ⟨(runGameIteration_paused_spec Nat.succ (fun w => (w + 1, ([] : List ℕ)))
      pausedSampleState true).1 rfl,
   (runGameIteration_paused_spec Nat.succ (fun w => (w + 1, ([] : List ℕ)))
      pausedSampleState true).2.2.1⟩

/-- A concrete rising wave state machine: start height 0, target 1, delay 1,
automatic release. -/
noncomputable def smSample : SWEWaveStateMachine :=
  { sampleIndex := 0
    lowHeight := 0
    currentPhaseStartHeight := 0
    currentPhaseTargetHeight := 1
    currentHeight := 0
    currentProgress := 0
    startSimulationTime := 0
    currentWavePhase := WavePhaseType.rise
    releaseMode := ReleaseModeType.automatic
    smoothingDelay := 1 }

/-- C8 counterexample: at mid-phase (progress `1/2`) the source interpolates
the rising height with `sin(π/2 · progress)` — yielding `√2/2` — not with
the `sin²` curve the claim states — which would yield `1/2`. -/
theorem smUpdate_sinSq_counterexample :
    ((smUpdate 1 smSample (1/2)).2).currentHeight
      ≠ specSinSqHeight smSample.currentPhaseStartHeight
          smSample.currentPhaseTargetHeight
          (smUpdateProgress smSample (1/2)) := by
  have hprog : smUpdateProgress smSample (1/2) = 1/2 := by
    simp [smUpdateProgress, smSample]
  have hmin : min ((1:ℝ)/2) 1 = 1/2 := by norm_num
  have harg : Real.pi / 2 * ((1:ℝ)/2) = Real.pi / 4 := by ring
  have hL : ((smUpdate 1 smSample (1/2)).2).currentHeight
      = Real.sin (Real.pi / 4) := by
    simp only [smUpdate, smUpdateProgress, smSample]
    norm_num
    rw [harg, Real.sin_pi_div_four]
  have hR : specSinSqHeight smSample.currentPhaseStartHeight
      smSample.currentPhaseTargetHeight (smUpdateProgress smSample (1/2))
      = Real.sin (Real.pi / 4) ^ 2 := by
    rw [hprog]
    simp only [specSinSqHeight, smSample]
    rw [hmin, harg]
    ring
  rw [hL, hR, Real.sin_pi_div_four]
  intro h
  have h2 : Real.sqrt 2 ^ 2 = 2 := Real.sq_sqrt (by norm_num)
  nlinarith [Real.sqrt_nonneg 2]

/-- C8 (amended): the external ocean-wave state machine, while in phase
`Rise`, interpolates the tagged cell's height from the phase start height
toward the target height along `sin(π/2 · min(progress, 1))` of the computed
delay (not `sin²`); on `Release` during `Rise`, it starts the `Fall` phase
toward the stored low height with a freshly computed delay; on completing
`Rise` in automatic mode it transitions to `Fall` with target the stored low
height; a `Restart(target)` in any phase restarts a `Rise` phase from the
current height toward the new target with a freshly computed delay. -/
theorem smWave_spec (dt : ℝ) (sm : SWEWaveStateMachine) (t target : ℝ) :
    (((smUpdate dt sm t).2).currentHeight
        = sm.currentPhaseStartHeight
          + (sm.currentPhaseTargetHeight - sm.currentPhaseStartHeight)
            * Real.sin (Real.pi / 2 * min (smUpdateProgress sm t) 1))
      ∧ (sm.currentWavePhase = WavePhaseType.rise →
          smRelease dt sm t = startFallPhase dt sm t
            ∧ (smRelease dt sm t).currentWavePhase = WavePhaseType.fall
            ∧ (smRelease dt sm t).currentPhaseTargetHeight = sm.lowHeight
            ∧ (smRelease dt sm t).currentPhaseStartHeight = sm.currentHeight
            ∧ (smRelease dt sm t).currentProgress = 0
            ∧ (smRelease dt sm t).smoothingDelay
                = calculateSmoothingDelay dt sm.lowHeight sm.currentHeight
                    WavePhaseType.fall)
      ∧ (sm.currentWavePhase = WavePhaseType.rise →
          sm.releaseMode = ReleaseModeType.automatic →
          1 ≤ smUpdateProgress sm t →
          ((smUpdate dt sm t).2).currentWavePhase = WavePhaseType.fall
            ∧ ((smUpdate dt sm t).2).currentPhaseTargetHeight = sm.lowHeight)
      ∧ ((smRestart dt sm target t).currentWavePhase = WavePhaseType.rise
          ∧ (smRestart dt sm target t).currentPhaseStartHeight
              = sm.currentHeight
          ∧ (smRestart dt sm target t).currentPhaseTargetHeight = target
          ∧ (smRestart dt sm target t).currentProgress = 0
          ∧ (smRestart dt sm target t).startSimulationTime = t
          ∧ (smRestart dt sm target t).smoothingDelay
              = calculateSmoothingDelay dt target sm.currentHeight
                  WavePhaseType.rise) := by
  refine ⟨?_, ?_, ?_, rfl, rfl, rfl, rfl, rfl, rfl⟩
  · simp only [smUpdate]
    split_ifs <;> simp [startFallPhase]
  · intro hrise
    rw [smRelease, if_pos hrise]
    exact ⟨rfl, rfl, rfl, rfl, rfl, rfl⟩
  · intro hrise hauto hprog
    simp only [smUpdate]
    rw [if_pos hprog, if_pos hrise, if_pos hauto]
    exact ⟨rfl, rfl⟩

/-- Witness for `smWave_spec` at the sample machine: the release hypothesis
(`Rise` phase) and the automatic-completion hypotheses are discharged at
`t = 2` (progress 2 ≥ 1). -/
theorem smWave_spec_witness :
    (smRelease 1 smSample 2).currentWavePhase = WavePhaseType.fall
      ∧ (smRelease 1 smSample 2).currentPhaseTargetHeight = smSample.lowHeight
      ∧ ((smUpdate 1 smSample 2).2).currentWavePhase = WavePhaseType.fall
      ∧ ((smUpdate 1 smSample 2).2).currentPhaseTargetHeight
          = smSample.lowHeight
      ∧ (smRestart 1 smSample 5 2).currentWavePhase = WavePhaseType.rise
      ∧ (smRestart 1 smSample 5 2).currentPhaseTargetHeight = 5 :=
  ⟨((smWave_spec 1 smSample 2 5).2.1 rfl).2.1,
   ((smWave_spec 1 smSample 2 5).2.1 rfl).2.2.1,
   ((smWave_spec 1 smSample 2 5).2.2.1 rfl rfl
      (by norm_num [smUpdateProgress, smSample])).1,
   ((smWave_spec 1 smSample 2 5).2.2.1 rfl rfl
      (by norm_num [smUpdateProgress, smSample])).2,
   (smWave_spec 1 smSample 2 5).2.2.2.1,
   (smWave_spec 1 smSample 2 5).2.2.2.2.2.1⟩

/-! ### Combustion lemmas -/

theorem mem_insertByPlaneId (planeId : ℕ → ℕ) (p : ℕ) (l : List ℕ) (q : ℕ) :
    q ∈ insertByPlaneId planeId p l ↔ q = p ∨ q ∈ l := by
  induction l with
  | nil => simp [insertByPlaneId]
  | cons r rest ih =>
      unfold insertByPlaneId
      split <;> simp only [List.mem_cons, ih] <;> tauto

theorem length_insertByPlaneId (planeId : ℕ → ℕ) (p : ℕ) (l : List ℕ) :
    (insertByPlaneId planeId p l).length = l.length + 1 := by
  induction l with
  | nil => simp [insertByPlaneId]
  | cons r rest ih =>
      unfold insertByPlaneId
      split
      · simp [ih]
      · simp

theorem nodup_insertByPlaneId (planeId : ℕ → ℕ) (p : ℕ) (l : List ℕ)
    (hp : p ∉ l) (hl : l.Nodup) : (insertByPlaneId planeId p l).Nodup := by
  induction l with
  | nil => simp [insertByPlaneId]
  | cons r rest ih =>
      unfold insertByPlaneId
      rw [List.nodup_cons] at hl
      split
      · rw [List.nodup_cons]
        refine ⟨?_, ih (fun h => hp (List.mem_cons_of_mem _ h)) hl.2⟩
        rw [mem_insertByPlaneId]
        rintro (rfl | h)
        · exact hp (List.mem_cons_self _ _)
        · exact hl.1 h
      · rw [List.nodup_cons, List.nodup_cons]
        exact ⟨hp, hl.1, hl.2⟩

theorem lowFreqIndices_nodup (nShip pointOffset pointStride : ℕ) :
    (lowFreqIndices nShip pointOffset pointStride).Nodup :=
  (List.nodup_range nShip).filter _

theorem lowFreqIndices_lt (nShip pointOffset pointStride : ℕ) :
    ∀ p ∈ lowFreqIndices nShip pointOffset pointStride, p < nShip := by
  intro p hp
  exact List.mem_range.mp (List.mem_of_mem_filter hp)

/-- Any run of the low-frequency scan loop changes a point's combustion
state either not at all or from `Burning` to `Extinguishing_Consumed`. -/
theorem lowFreqScanFold_state (env : CombustionLowFreqEnv) :
    ∀ (l : List ℕ) (acc : LowFreqScanAccum) (q : ℕ),
      (l.foldl (lowFreqScanStep env) acc).combustionState q
          = acc.combustionState q
        ∨ ((acc.combustionState q).state = CombustionStateType.burning
            ∧ (l.foldl (lowFreqScanStep env) acc).combustionState q
                = { acc.combustionState q with
                      state := CombustionStateType.extinguishingConsumed }) := by
  intro l
  induction l with
  | nil => intro acc q; exact Or.inl rfl
  | cons p rest ih =>
      intro acc q
      rw [List.foldl_cons]
      have hstep : (lowFreqScanStep env acc p).combustionState q
            = acc.combustionState q
          ∨ ((acc.combustionState q).state = CombustionStateType.burning
              ∧ (lowFreqScanStep env acc p).combustionState q
                  = { acc.combustionState q with
                        state := CombustionStateType.extinguishingConsumed }) := by
        dsimp only [lowFreqScanStep]
        split_ifs with h1 h2 h3 h4
        · exact Or.inl rfl
        · exact Or.inl rfl
        · by_cases hq : q = p
          · subst hq
            exact Or.inr ⟨h3, by simp⟩
          · exact Or.inl (Function.update_noteq hq _ _)
        · exact Or.inl rfl
        · exact Or.inl rfl
      rcases ih (lowFreqScanStep env acc p) q with h1 | ⟨h2a, h2b⟩
      · rw [h1]
        exact hstep
      · rcases hstep with h3 | ⟨h4a, h4b⟩
        · rw [h3] at h2a h2b
          exact Or.inr ⟨h2a, h2b⟩
        · rw [h4b] at h2a
          simp at h2a

theorem lowFreqScanFold_notBurning_iff (env : CombustionLowFreqEnv)
    (l : List ℕ) (acc : LowFreqScanAccum) (q : ℕ) :
    ((l.foldl (lowFreqScanStep env) acc).combustionState q).state
        = CombustionStateType.notBurning
      ↔ (acc.combustionState q).state = CombustionStateType.notBurning := by
  rcases lowFreqScanFold_state env l acc q with h | ⟨h1, h2⟩
  · rw [h]
  · rw [h1, h2]
    simp

theorem lowFreqScanFold_active (env : CombustionLowFreqEnv)
    (l : List ℕ) (acc : LowFreqScanAccum) (q : ℕ)
    (h : isActiveCombustion
      ((l.foldl (lowFreqScanStep env) acc).combustionState q).state = true) :
    isActiveCombustion (acc.combustionState q).state = true := by
  rcases lowFreqScanFold_state env l acc q with h1 | ⟨h1, h2⟩
  · rw [h1] at h
    exact h
  · rw [h2] at h
    simp [isActiveCombustion] at h

/-- One scan iteration either leaves the candidate list alone, or — exactly
when the visited point is `NotBurning` and ignitable — appends that point,
leaving the combustion states untouched. -/
theorem lowFreqScanStep_cands (env : CombustionLowFreqEnv)
    (acc : LowFreqScanAccum) (p : ℕ) :
    (lowFreqScanStep env acc p).ignitionCandidates = acc.ignitionCandidates
      ∨ ((lowFreqScanStep env acc p).ignitionCandidates
            = acc.ignitionCandidates
              ++ [(p, (env.temperature p
                    - env.materialIgnitionTemperature p
                      * env.ignitionTemperatureAdjustment)
                  / (env.materialIgnitionTemperature p
                      * env.ignitionTemperatureAdjustment))]
          ∧ (lowFreqScanStep env acc p).combustionState = acc.combustionState
          ∧ (acc.combustionState p).state = CombustionStateType.notBurning) := by
  dsimp only [lowFreqScanStep]
  split_ifs with h1 h2 h3 h4
  · exact Or.inr ⟨rfl, rfl, h1⟩
  · exact Or.inl rfl
  · exact Or.inl rfl
  · exact Or.inl rfl
  · exact Or.inl rfl

/-- Candidate bookkeeping along the scan: the collected candidates have
pairwise-distinct indices, every candidate is (and stays) `NotBurning`, and
every candidate index comes from the visited index list. -/
theorem lowFreqScanFold_cands (env : CombustionLowFreqEnv) :
    ∀ (l : List ℕ) (acc : LowFreqScanAccum),
      l.Nodup →
      (∀ pk ∈ acc.ignitionCandidates, pk.1 ∉ l) →
      ((acc.ignitionCandidates.map Prod.fst).Nodup) →
      (∀ pk ∈ acc.ignitionCandidates,
        (acc.combustionState pk.1).state = CombustionStateType.notBurning) →
      (((l.foldl (lowFreqScanStep env) acc).ignitionCandidates.map
          Prod.fst).Nodup)
        ∧ (∀ pk ∈ (l.foldl (lowFreqScanStep env) acc).ignitionCandidates,
            ((l.foldl (lowFreqScanStep env) acc).combustionState pk.1).state
              = CombustionStateType.notBurning)
        ∧ (∀ pk ∈ (l.foldl (lowFreqScanStep env) acc).ignitionCandidates,
            pk ∈ acc.ignitionCandidates ∨ pk.1 ∈ l) := by
  intro l
  induction l with
  | nil =>
      intro acc _ _ hnd hnb
      exact ⟨hnd, hnb, fun pk hpk => Or.inl hpk⟩
  | cons p rest ih =>
      intro acc hl hdisj hnd hnb
      rw [List.nodup_cons] at hl
      rw [List.foldl_cons]
      have hstep1 : ∀ q,
          ((lowFreqScanStep env acc p).combustionState q).state
              = CombustionStateType.notBurning
            ↔ (acc.combustionState q).state = CombustionStateType.notBurning := by
        intro q
        exact lowFreqScanFold_notBurning_iff env [p] acc q
      rcases lowFreqScanStep_cands env acc p with hc | ⟨hc, hcs, hpnb⟩
      · have h1 : ∀ pk ∈ (lowFreqScanStep env acc p).ignitionCandidates,
            pk.1 ∉ rest := by
          rw [hc]
          intro pk hpk
          exact fun h => hdisj pk hpk (List.mem_cons_of_mem _ h)
        have h2 : ((lowFreqScanStep env acc p).ignitionCandidates.map
            Prod.fst).Nodup := by
          rw [hc]; exact hnd
        have h3 : ∀ pk ∈ (lowFreqScanStep env acc p).ignitionCandidates,
            ((lowFreqScanStep env acc p).combustionState pk.1).state
              = CombustionStateType.notBurning := by
          rw [hc]
          intro pk hpk
          exact (hstep1 pk.1).mpr (hnb pk hpk)
        obtain ⟨r1, r2, r3⟩ := ih (lowFreqScanStep env acc p) hl.2 h1 h2 h3
        refine ⟨r1, r2, ?_⟩
        intro pk hpk
        rcases r3 pk hpk with hin | hin
        · rw [hc] at hin
          exact Or.inl hin
        · exact Or.inr (List.mem_cons_of_mem _ hin)
      · have hne : ∀ pk ∈ acc.ignitionCandidates, pk.1 ≠ p := by
          intro pk hpk h
          exact hdisj pk hpk (h ▸ List.mem_cons_self _ _)
        have h1 : ∀ pk ∈ (lowFreqScanStep env acc p).ignitionCandidates,
            pk.1 ∉ rest := by
          rw [hc]
          intro pk hpk
          rcases List.mem_append.mp hpk with hin | hin
          · exact fun h => hdisj pk hin (List.mem_cons_of_mem _ h)
          · simp only [List.mem_singleton] at hin
            subst hin
            exact hl.1
        have h2 : ((lowFreqScanStep env acc p).ignitionCandidates.map
            Prod.fst).Nodup := by
          rw [hc, List.map_append]
          simp only [List.map_cons, List.map_nil]
          rw [List.nodup_append]
          refine ⟨hnd, List.nodup_singleton p, ?_⟩
          intro a ha hb
          simp only [List.mem_singleton] at hb
          subst hb
          obtain ⟨pk, hpk, hfst⟩ := List.mem_map.mp ha
          exact hne pk hpk hfst
        have h3 : ∀ pk ∈ (lowFreqScanStep env acc p).ignitionCandidates,
            ((lowFreqScanStep env acc p).combustionState pk.1).state
              = CombustionStateType.notBurning := by
          rw [hc, hcs]
          intro pk hpk
          rcases List.mem_append.mp hpk with hin | hin
          · exact hnb pk hin
          · simp only [List.mem_singleton] at hin
            subst hin
            exact hpnb
        obtain ⟨r1, r2, r3⟩ := ih (lowFreqScanStep env acc p) hl.2 h1 h2 h3
        refine ⟨r1, r2, ?_⟩
        intro pk hpk
        rcases r3 pk hpk with hin | hin
        · rw [hc] at hin
          rcases List.mem_append.mp hin with hin2 | hin2
          · exact Or.inl hin2
          · simp only [List.mem_singleton] at hin2
            subst hin2
            exact Or.inr (List.mem_cons_self _ _)
        · exact Or.inr (List.mem_cons_of_mem _ hin)

theorem igniteFold_state_other (env : CombustionLowFreqEnv) :
    ∀ (tk : List (ℕ × ℚ)) (s : CombustionPoints) (q : ℕ),
      q ∉ tk.map Prod.fst →
      (tk.foldl (ignitePoint env) s).combustionState q = s.combustionState q := by
  intro tk
  induction tk with
  | nil => intro s q _; rfl
  | cons pk rest ih =>
      intro s q hq
      simp only [List.map_cons, List.mem_cons] at hq
      push_neg at hq
      rw [List.foldl_cons, ih _ _ hq.2]
      exact Function.update_noteq hq.1 _ _

theorem igniteFold_state_mem (env : CombustionLowFreqEnv) :
    ∀ (tk : List (ℕ × ℚ)) (s : CombustionPoints),
      (tk.map Prod.fst).Nodup →
      ∀ pk ∈ tk,
        ((tk.foldl (ignitePoint env) s).combustionState pk.1).state
          = CombustionStateType.developing1 := by
  intro tk
  induction tk with
  | nil => intro s _ pk hpk; simp at hpk
  | cons pk' rest ih =>
      intro s hnd pk hpk
      simp only [List.map_cons, List.nodup_cons] at hnd
      rw [List.foldl_cons]
      rcases List.mem_cons.mp hpk with rfl | hmem
      · rw [igniteFold_state_other env rest _ pk.1 hnd.1]
        simp [ignitePoint, Function.update_same]
      · exact ih _ hnd.2 pk hmem

theorem igniteFold_burning_mem (env : CombustionLowFreqEnv) :
    ∀ (tk : List (ℕ × ℚ)) (s : CombustionPoints) (q : ℕ),
      q ∈ (tk.foldl (ignitePoint env) s).burningPoints
        ↔ q ∈ s.burningPoints ∨ q ∈ tk.map Prod.fst := by
  intro tk
  induction tk with
  | nil => intro s q; simp
  | cons pk rest ih =>
      intro s q
      rw [List.foldl_cons, ih]
      simp only [ignitePoint]
      rw [mem_insertByPlaneId]
      simp only [List.map_cons, List.mem_cons]
      tauto

theorem igniteFold_burning_len (env : CombustionLowFreqEnv) :
    ∀ (tk : List (ℕ × ℚ)) (s : CombustionPoints),
      (tk.foldl (ignitePoint env) s).burningPoints.length
        = s.burningPoints.length + tk.length := by
  intro tk
  induction tk with
  | nil => intro s; rfl
  | cons pk rest ih =>
      intro s
      rw [List.foldl_cons, ih]
      simp only [ignitePoint]
      rw [length_insertByPlaneId]
      simp only [List.length_cons]
      omega

theorem igniteFold_burning_nodup (env : CombustionLowFreqEnv) :
    ∀ (tk : List (ℕ × ℚ)) (s : CombustionPoints),
      (tk.map Prod.fst).Nodup →
      (∀ pk ∈ tk, pk.1 ∉ s.burningPoints) →
      s.burningPoints.Nodup →
      (tk.foldl (ignitePoint env) s).burningPoints.Nodup := by
  intro tk
  induction tk with
  | nil => intro s _ _ h; exact h
  | cons pk rest ih =>
      intro s hnd hdisj hbp
      simp only [List.map_cons, List.nodup_cons] at hnd
      rw [List.foldl_cons]
      refine ih _ hnd.2 ?_ ?_
      · intro pk' hpk'
        simp only [ignitePoint]
        rw [mem_insertByPlaneId]
        rintro (h | h)
        · exact hnd.1 (h ▸ List.mem_map_of_mem Prod.fst hpk')
        · exact hdisj pk' (List.mem_cons_of_mem _ hpk') h
      · simp only [ignitePoint]
        exact nodup_insertByPlaneId _ _ _
          (hdisj pk (List.mem_cons_self _ _)) hbp

theorem igniteFold_decay (env : CombustionLowFreqEnv) :
    ∀ (tk : List (ℕ × ℚ)) (s : CombustionPoints),
      (tk.foldl (ignitePoint env) s).decay = s.decay := by
  intro tk
  induction tk with
  | nil => intro s; rfl
  | cons pk rest ih =>
      intro s
      rw [List.foldl_cons, ih]
      rfl

theorem smother_preserves_invariant (nShip maxB : ℕ) (s : CombustionPoints)
    (p : ℕ) (hInv : CombustionInvariant nShip maxB s) :
    CombustionInvariant nShip maxB (smotherCombustion s p) := by
  obtain ⟨h1, h2, h3, h4, h5⟩ := hInv
  refine ⟨h1, h2, ?_, ?_, h5⟩
  · intro q hq
    by_cases hqp : q = p
    · subst hqp
      simp [smotherCombustion, Function.update_same]
    · simp only [smotherCombustion]
      rw [Function.update_noteq hqp]
      exact h3 q hq
  · intro q hq
    by_cases hqp : q = p
    · subst hqp
      simp only [smotherCombustion, Function.update_same] at hq
      simp [isActiveCombustion] at hq
    · simp only [smotherCombustion] at hq
      rw [Function.update_noteq hqp] at hq
      exact h4 q hq

theorem invariant_update_state (nShip maxB : ℕ) (s1 : CombustionPoints)
    (p : ℕ) (newc : CombustionState)
    (hInv : CombustionInvariant nShip maxB s1)
    (hne : newc.state ≠ CombustionStateType.notBurning)
    (hact : isActiveCombustion newc.state = true → p ∈ s1.burningPoints) :
    CombustionInvariant nShip maxB
      { s1 with combustionState := Function.update s1.combustionState p newc } := by
  obtain ⟨h1, h2, h3, h4, h5⟩ := hInv
  refine ⟨h1, h2, ?_, ?_, h5⟩
  · intro q hq
    by_cases hqp : q = p
    · subst hqp
      simpa [Function.update_same] using hne
    · simpa [Function.update_noteq hqp] using h3 q hq
  · intro q hq
    by_cases hqp : q = p
    · subst hqp
      rw [show ({ s1 with combustionState :=
            Function.update s1.combustionState q newc } :
          CombustionPoints).combustionState q = newc by
        simp [Function.update_same]] at hq
      exact hact hq
    · rw [show ({ s1 with combustionState :=
            Function.update s1.combustionState p newc } :
          CombustionPoints).combustionState q = s1.combustionState q by
        simp [Function.update_noteq hqp]] at hq
      exact h4 q hq

theorem invariant_remove_state (nShip maxB : ℕ) (s1 : CombustionPoints)
    (p : ℕ) (newc : CombustionState)
    (hInv : CombustionInvariant nShip maxB s1)
    (hnb : newc.state = CombustionStateType.notBurning) :
    CombustionInvariant nShip maxB
      { s1 with
          combustionState := Function.update s1.combustionState p newc
          burningPoints := s1.burningPoints.erase p } := by
  obtain ⟨h1, h2, h3, h4, h5⟩ := hInv
  refine ⟨h1.erase p, ?_, ?_, ?_, ?_⟩
  · intro q hq
    exact h2 q (List.mem_of_mem_erase hq)
  · intro q hq
    obtain ⟨hqp, hqbp⟩ := (List.Nodup.mem_erase_iff h1).mp hq
    simpa [Function.update_noteq hqp] using h3 q hqbp
  · intro q hq
    by_cases hqp : q = p
    · subst hqp
      rw [show ({ s1 with
            combustionState := Function.update s1.combustionState q newc
            burningPoints := s1.burningPoints.erase q } :
          CombustionPoints).combustionState q = newc by
        simp [Function.update_same]] at hq
      rw [hnb] at hq
      simp [isActiveCombustion] at hq
    · rw [show ({ s1 with
            combustionState := Function.update s1.combustionState p newc
            burningPoints := s1.burningPoints.erase p } :
          CombustionPoints).combustionState q = s1.combustionState q by
        simp [Function.update_noteq hqp]] at hq
      exact (List.Nodup.mem_erase_iff h1).mpr ⟨hqp, h4 q hq⟩
  · calc (s1.burningPoints.erase p).length
        ≤ s1.burningPoints.length := (s1.burningPoints.erase_sublist p).length_le
    _ ≤ maxB := h5

theorem combustionMachineStep_preserves_invariant (nShip maxB : ℕ)
    (s1 : CombustionPoints) (p : ℕ)
    (hInv : CombustionInvariant nShip maxB s1) :
    CombustionInvariant nShip maxB (combustionMachineStep s1 p) := by
  have h4 := hInv.2.2.2.1
  dsimp only [combustionMachineStep]
  split
  · -- Developing_1
    next heq =>
      refine invariant_update_state nShip maxB s1 p _ hInv ?_ ?_
      · split_ifs <;> simp
      · intro _
        refine h4 p ?_
        rw [heq]
        rfl
  · -- Developing_2
    next heq =>
      split_ifs with hd
      · refine invariant_update_state nShip maxB s1 p _ hInv (by simp) ?_
        intro _
        refine h4 p ?_
        rw [heq]
        rfl
      · refine invariant_update_state nShip maxB s1 p _ hInv ?_ ?_
        · simp only []
          rw [heq]
          simp
        · intro _
          refine h4 p ?_
          rw [heq]
          rfl
  · -- Extinguishing_Consumed
    next heq =>
      split_ifs with hd
      · exact invariant_remove_state nShip maxB s1 p _ hInv (by simp)
      · refine invariant_update_state nShip maxB s1 p _ hInv ?_ ?_
        · simp only []
          rw [heq]
          simp
        · simp only []
          rw [heq]
          intro h
          simp [isActiveCombustion] at h
  · -- Extinguishing_Smothered
    next heq =>
      split_ifs with hd
      · exact invariant_remove_state nShip maxB s1 p _ hInv (by simp)
      · refine invariant_update_state nShip maxB s1 p _ hInv ?_ ?_
        · simp only []
          rw [heq]
          simp
        · simp only []
          rw [heq]
          intro h
          simp [isActiveCombustion] at h
  · -- Burning / NotBurning: no change
    exact hInv

theorem highFreqStep_preserves_invariant (nShip maxB : ℕ)
    (env : CombustionHighFreqEnv) (s : CombustionPoints) (p : ℕ)
    (hInv : CombustionInvariant nShip maxB s) :
    CombustionInvariant nShip maxB (highFreqStep env s p) := by
  dsimp only [highFreqStep]
  split_ifs with hsm
  · exact combustionMachineStep_preserves_invariant nShip maxB _ p
      (smother_preserves_invariant nShip maxB s p hInv)
  · exact combustionMachineStep_preserves_invariant nShip maxB s p hInv

theorem updateCombustionHighFrequency_preserves_invariant (nShip maxB : ℕ)
    (env : CombustionHighFreqEnv) (s : CombustionPoints)
    (hInv : CombustionInvariant nShip maxB s) :
    CombustionInvariant nShip maxB (updateCombustionHighFrequency env s) := by
  unfold updateCombustionHighFrequency
  generalize s.burningPoints = l
  induction l generalizing s with
  | nil => exact hInv
  | cons p rest ih =>
      rw [List.foldl_cons]
      exact ih _ (highFreqStep_preserves_invariant nShip maxB env s p hInv)

instance : IsTotal (ℕ × ℚ) candidateOrder :=
  ⟨fun a b => le_total b.2 a.2⟩

instance : IsTrans (ℕ × ℚ) candidateOrder :=
  ⟨fun _ _ _ h1 h2 => le_trans h2 h1⟩

/-- The candidate list produced by the scan phase: distinct indices, all
`NotBurning` (both before and after the scan), all in the ship region. -/
theorem lowFreqScan_cands_spec (nShip : ℕ) (env : CombustionLowFreqEnv)
    (pointOffset pointStride : ℕ) (s : CombustionPoints) :
    (((lowFreqScan nShip env pointOffset pointStride s).ignitionCandidates.map
        Prod.fst).Nodup)
      ∧ (∀ pk ∈ (lowFreqScan nShip env pointOffset pointStride
            s).ignitionCandidates,
          ((lowFreqScan nShip env pointOffset pointStride s).combustionState
              pk.1).state = CombustionStateType.notBurning)
      ∧ (∀ pk ∈ (lowFreqScan nShip env pointOffset pointStride
            s).ignitionCandidates,
          (s.combustionState pk.1).state = CombustionStateType.notBurning)
      ∧ (∀ pk ∈ (lowFreqScan nShip env pointOffset pointStride
            s).ignitionCandidates, pk.1 < nShip) := by
  obtain ⟨r1, r2, r3⟩ := lowFreqScanFold_cands env
    (lowFreqIndices nShip pointOffset pointStride)
    { combustionState := s.combustionState
      decay := s.decay
      ignitionCandidates := [] }
    (lowFreqIndices_nodup nShip pointOffset pointStride)
    (by simp) (by simp) (by simp)
  refine ⟨r1, r2, ?_, ?_⟩
  · intro pk hpk
    exact (lowFreqScanFold_notBurning_iff env _ _ pk.1).mp (r2 pk hpk)
  · intro pk hpk
    rcases r3 pk hpk with h | h
    · simp at h
    · exact lowFreqIndices_lt nShip pointOffset pointStride pk.1 h

/-- The ignited candidate list: distinct indices, drawn from the candidate
list, of length exactly `maxPoints`. -/
theorem ignitedCandidates_spec (nShip maxBurningParticles : ℕ)
    (env : CombustionLowFreqEnv) (pointOffset pointStride : ℕ)
    (s : CombustionPoints) :
    (((ignitedCandidates nShip maxBurningParticles env pointOffset pointStride
        s).map Prod.fst).Nodup)
      ∧ (∀ pk ∈ ignitedCandidates nShip maxBurningParticles env pointOffset
            pointStride s,
          pk ∈ (lowFreqScan nShip env pointOffset pointStride
            s).ignitionCandidates)
      ∧ (ignitedCandidates nShip maxBurningParticles env pointOffset
            pointStride s).length
          = lowFreqMaxPoints maxBurningParticles env s.burningPoints.length
              (lowFreqScan nShip env pointOffset pointStride
                s).ignitionCandidates.length := by
  obtain ⟨c1, _, _, _⟩ := lowFreqScan_cands_spec nShip env pointOffset
    pointStride s
  have hperm : List.Perm
      ((lowFreqScan nShip env pointOffset pointStride
        s).ignitionCandidates.insertionSort candidateOrder)
      (lowFreqScan nShip env pointOffset pointStride s).ignitionCandidates :=
    List.perm_insertionSort candidateOrder _
  refine ⟨?_, ?_, ?_⟩
  · rw [ignitedCandidates, List.map_take]
    refine List.Nodup.sublist (List.take_sublist _ _) ?_
    exact (hperm.map Prod.fst).nodup_iff.mpr c1
  · intro pk hpk
    rw [ignitedCandidates] at hpk
    exact hperm.mem_iff.mp (List.mem_of_mem_take hpk)
  · rw [ignitedCandidates, List.length_take, hperm.length_eq]
    exact Nat.min_eq_left (Nat.min_le_right _ _)

/-- The low-frequency pass preserves the burning-list invariant; in
particular it never ignites more candidates than
`MaxBurningParticles - |burning list|`. -/
theorem updateCombustionLowFrequency_preserves_invariant
    (nShip maxBurningParticles : ℕ) (env : CombustionLowFreqEnv)
    (pointOffset pointStride : ℕ) (s : CombustionPoints)
    (hInv : CombustionInvariant nShip maxBurningParticles s) :
    CombustionInvariant nShip maxBurningParticles
      (updateCombustionLowFrequency nShip maxBurningParticles env pointOffset
        pointStride s) := by
  obtain ⟨h1, h2, h3, h4, h5⟩ := hInv
  obtain ⟨c1, c2, c3, c4⟩ := lowFreqScan_cands_spec nShip env pointOffset
    pointStride s
  obtain ⟨t1, t2, t3⟩ := ignitedCandidates_spec nShip maxBurningParticles env
    pointOffset pointStride s
  set tk := ignitedCandidates nShip maxBurningParticles env pointOffset
    pointStride s with htk
  set scanned := lowFreqScan nShip env pointOffset pointStride s with hscanned
  have hs' : updateCombustionLowFrequency nShip maxBurningParticles env
      pointOffset pointStride s
      = tk.foldl (ignitePoint env)
          { combustionState := scanned.combustionState
            decay := scanned.decay
            burningPoints := s.burningPoints } := rfl
  set s1 : CombustionPoints :=
    { combustionState := scanned.combustionState
      decay := scanned.decay
      burningPoints := s.burningPoints } with hs1
  have htdisj : ∀ pk ∈ tk, pk.1 ∉ s1.burningPoints := by
    intro pk hpk hmem
    exact h3 pk.1 hmem (c3 pk (t2 pk hpk))
  have hscan_nb : ∀ q, (scanned.combustionState q).state
        = CombustionStateType.notBurning
      ↔ (s.combustionState q).state = CombustionStateType.notBurning := by
    intro q
    exact lowFreqScanFold_notBurning_iff env _ _ q
  have hscan_act : ∀ q,
      isActiveCombustion (scanned.combustionState q).state = true →
      isActiveCombustion (s.combustionState q).state = true := by
    intro q
    exact lowFreqScanFold_active env _ _ q
  rw [hs']
  refine ⟨?_, ?_, ?_, ?_, ?_⟩
  · exact igniteFold_burning_nodup env tk s1 t1 htdisj h1
  · intro q hq
    rcases (igniteFold_burning_mem env tk s1 q).mp hq with h | h
    · exact h2 q h
    · obtain ⟨pk, hpk, rfl⟩ := List.mem_map.mp h
      exact c4 pk (t2 pk hpk)
  · intro q hq
    by_cases hqtk : q ∈ tk.map Prod.fst
    · obtain ⟨pk, hpk, rfl⟩ := List.mem_map.mp hqtk
      rw [igniteFold_state_mem env tk s1 t1 pk hpk]
      simp
    · rw [igniteFold_state_other env tk s1 q hqtk]
      rcases (igniteFold_burning_mem env tk s1 q).mp hq with h | h
      · intro hnb
        exact h3 q h ((hscan_nb q).mp hnb)
      · exact absurd h hqtk
  · intro q hq
    by_cases hqtk : q ∈ tk.map Prod.fst
    · exact (igniteFold_burning_mem env tk s1 q).mpr (Or.inr hqtk)
    · rw [igniteFold_state_other env tk s1 q hqtk] at hq
      exact (igniteFold_burning_mem env tk s1 q).mpr
        (Or.inl (h4 q (hscan_act q hq)))
  · rw [igniteFold_burning_len env tk s1]
    have hK : tk.length
        ≤ if s.burningPoints.length < maxBurningParticles then
            maxBurningParticles - s.burningPoints.length
          else 0 := by
      rw [t3]
      exact le_trans (Nat.min_le_left _ _) (Nat.min_le_right _ _)
    by_cases hroom : s.burningPoints.length < maxBurningParticles
    · rw [if_pos hroom] at hK
      show s1.burningPoints.length + tk.length ≤ maxBurningParticles
      have : s1.burningPoints.length = s.burningPoints.length := rfl
      omega
    · rw [if_neg hroom] at hK
      show s1.burningPoints.length + tk.length ≤ maxBurningParticles
      have : s1.burningPoints.length = s.burningPoints.length := rfl
      omega

/-- The burning list is untouched by the state-machine switch unless the
point is in an `Extinguishing` state. -/
theorem combustionMachineStep_burningPoints_eq (s1 : CombustionPoints)
    (p : ℕ)
    (h : (s1.combustionState p).state = CombustionStateType.notBurning
      ∨ (s1.combustionState p).state = CombustionStateType.developing1
      ∨ (s1.combustionState p).state = CombustionStateType.developing2
      ∨ (s1.combustionState p).state = CombustionStateType.burning) :
    (combustionMachineStep s1 p).burningPoints = s1.burningPoints := by
  dsimp only [combustionMachineStep]
  rcases h with h | h | h | h
  · rw [h]
  · rw [h]
  · rw [h]
    split
    all_goals first
      | contradiction
      | rfl
      | (split <;> rfl)
  · rw [h]

/-- The `Extinguishing_Consumed` arm of the state-machine switch. -/
theorem combustionMachineStep_extConsumed_eq (s1 : CombustionPoints) (p : ℕ)
    (h : (s1.combustionState p).state
      = CombustionStateType.extinguishingConsumed) :
    combustionMachineStep s1 p =
      if (s1.combustionState p).flameDevelopment
          - 1/16 * ((s1.combustionState p).maxFlameDevelopment
            - (s1.combustionState p).flameDevelopment + 1/100) ≤ 1/50 then
        { s1 with
            combustionState := Function.update s1.combustionState p
              { s1.combustionState p with
                  state := CombustionStateType.notBurning
                  flameDevelopment := (s1.combustionState p).flameDevelopment
                    - 1/16 * ((s1.combustionState p).maxFlameDevelopment
                      - (s1.combustionState p).flameDevelopment + 1/100) }
            burningPoints := s1.burningPoints.erase p }
      else
        { s1 with
            combustionState := Function.update s1.combustionState p
              { s1.combustionState p with
                  flameDevelopment := (s1.combustionState p).flameDevelopment
                    - 1/16 * ((s1.combustionState p).maxFlameDevelopment
                      - (s1.combustionState p).flameDevelopment + 1/100) } } := by
  dsimp only [combustionMachineStep]
  rw [h]

/-- The `Extinguishing_Smothered` arm of the state-machine switch. -/
theorem combustionMachineStep_extSmothered_eq (s1 : CombustionPoints) (p : ℕ)
    (h : (s1.combustionState p).state
      = CombustionStateType.extinguishingSmothered) :
    combustionMachineStep s1 p =
      if (s1.combustionState p).flameDevelopment
          - 3/10 * (s1.combustionState p).flameDevelopment ≤ 1/50 then
        { s1 with
            combustionState := Function.update s1.combustionState p
              { s1.combustionState p with
                  state := CombustionStateType.notBurning
                  flameDevelopment := (s1.combustionState p).flameDevelopment
                    - 3/10 * (s1.combustionState p).flameDevelopment }
            burningPoints := s1.burningPoints.erase p }
      else
        { s1 with
            combustionState := Function.update s1.combustionState p
              { s1.combustionState p with
                  flameDevelopment := (s1.combustionState p).flameDevelopment
                    - 3/10 * (s1.combustionState p).flameDevelopment } } := by
  dsimp only [combustionMachineStep]
  rw [h]

/-- A point leaves the burning list only when the high-frequency state
machine has driven its flame development to `0.02` or below while it was in
an `Extinguishing` state (either one it was already in, or the smothered
state it entered in this very step because it was underwater or waterlogged). -/
theorem highFreqStep_removal (env : CombustionHighFreqEnv)
    (s : CombustionPoints) (p q : ℕ)
    (hnd : s.burningPoints.Nodup) (hq : q ∈ s.burningPoints)
    (hq' : q ∉ (highFreqStep env s p).burningPoints) :
    ((highFreqStep env s p).combustionState q).state
        = CombustionStateType.notBurning
      ∧ ((highFreqStep env s p).combustionState q).flameDevelopment ≤ 1/50
      ∧ ((s.combustionState q).state
            = CombustionStateType.extinguishingConsumed
          ∨ (s.combustionState q).state
              = CombustionStateType.extinguishingSmothered
          ∨ env.isUnderwater q = true
          ∨ env.water q > env.smotheringWaterHighWatermark) := by
  dsimp only [highFreqStep] at hq' ⊢
  split_ifs at hq' ⊢ with hsm
  · -- smothered in this step
    have hst : ((smotherCombustion s p).combustionState p).state
        = CombustionStateType.extinguishingSmothered := by
      simp [smotherCombustion, Function.update_same]
    rw [combustionMachineStep_extSmothered_eq _ p hst] at hq' ⊢
    split_ifs at hq' ⊢ with hd
    · have hbp : (smotherCombustion s p).burningPoints = s.burningPoints := rfl
      rw [show ({ smotherCombustion s p with
            combustionState := Function.update
              (smotherCombustion s p).combustionState p
              { (smotherCombustion s p).combustionState p with
                  state := CombustionStateType.notBurning
                  flameDevelopment :=
                    ((smotherCombustion s p).combustionState p).flameDevelopment
                      - 3/10 * ((smotherCombustion s p).combustionState
                          p).flameDevelopment }
            burningPoints :=
              (smotherCombustion s p).burningPoints.erase p } :
          CombustionPoints).burningPoints
          = s.burningPoints.erase p from rfl] at hq'
      have hqp : q = p := by
        by_contra hne
        exact hq' ((hnd.mem_erase_iff).mpr ⟨hne, hq⟩)
      subst hqp
      refine ⟨?_, ?_, Or.inr (Or.inr hsm.2)⟩
      · simp [Function.update_same]
      · simp only [Function.update_same]
        exact hd
    · exact absurd hq hq'
  · -- not smothered: the machine runs on the original states
    rcases hstate : (s.combustionState p).state with _ | _ | _ | _ | _ | _
    · rw [combustionMachineStep_burningPoints_eq s p (Or.inl hstate)] at hq'
      exact absurd hq hq'
    · rw [combustionMachineStep_burningPoints_eq s p
        (Or.inr (Or.inl hstate))] at hq'
      exact absurd hq hq'
    · rw [combustionMachineStep_burningPoints_eq s p
        (Or.inr (Or.inr (Or.inl hstate)))] at hq'
      exact absurd hq hq'
    · rw [combustionMachineStep_burningPoints_eq s p
        (Or.inr (Or.inr (Or.inr hstate)))] at hq'
      exact absurd hq hq'
    · -- Extinguishing_Consumed
      rw [combustionMachineStep_extConsumed_eq s p hstate] at hq' ⊢
      split_ifs at hq' ⊢ with hd
      · rw [show ({ s with
              combustionState := Function.update s.combustionState p
                { s.combustionState p with
                    state := CombustionStateType.notBurning
                    flameDevelopment := (s.combustionState p).flameDevelopment
                      - 1/16 * ((s.combustionState p).maxFlameDevelopment
                        - (s.combustionState p).flameDevelopment + 1/100) }
              burningPoints := s.burningPoints.erase p } :
            CombustionPoints).burningPoints
            = s.burningPoints.erase p from rfl] at hq'
        have hqp : q = p := by
          by_contra hne
          exact hq' ((hnd.mem_erase_iff).mpr ⟨hne, hq⟩)
        subst hqp
        refine ⟨?_, ?_, Or.inl hstate⟩
        · simp [Function.update_same]
        · simp only [Function.update_same]
          exact hd
      · exact absurd hq hq'
    · -- Extinguishing_Smothered
      rw [combustionMachineStep_extSmothered_eq s p hstate] at hq' ⊢
      split_ifs at hq' ⊢ with hd
      · rw [show ({ s with
              combustionState := Function.update s.combustionState p
                { s.combustionState p with
                    state := CombustionStateType.notBurning
                    flameDevelopment := (s.combustionState p).flameDevelopment
                      - 3/10 * (s.combustionState p).flameDevelopment }
              burningPoints := s.burningPoints.erase p } :
            CombustionPoints).burningPoints
            = s.burningPoints.erase p from rfl] at hq'
        have hqp : q = p := by
          by_contra hne
          exact hq' ((hnd.mem_erase_iff).mpr ⟨hne, hq⟩)
        subst hqp
        refine ⟨?_, ?_, Or.inr (Or.inl hstate)⟩
        · simp [Function.update_same]
        · simp only [Function.update_same]
          exact hd
      · exact absurd hq hq'

theorem combustionInit_invariant (nShip maxBurningParticles : ℕ) :
    CombustionInvariant nShip maxBurningParticles combustionInit := by
  refine ⟨List.nodup_nil, ?_, ?_, ?_, ?_⟩
  · intro q hq
    simp [combustionInit] at hq
  · intro q hq
    simp [combustionInit] at hq
  · intro q hq
    simp [combustionInit, isActiveCombustion] at hq
  · simp [combustionInit]

theorem onOrphaned_preserves_invariant (nShip maxBurningParticles : ℕ)
    (s : CombustionPoints) (p : ℕ) (draw : ℚ)
    (hInv : CombustionInvariant nShip maxBurningParticles s) :
    CombustionInvariant nShip maxBurningParticles (onOrphaned s p draw) := by
  unfold onOrphaned
  split_ifs with hb
  · refine invariant_update_state nShip maxBurningParticles s p _ hInv ?_ ?_
    · show (s.combustionState p).state ≠ CombustionStateType.notBurning
      rw [hb]
      simp
    · intro h
      exact hInv.2.2.2.1 p h
  · exact hInv

theorem resetEphemeral_preserves_invariant (nShip maxBurningParticles : ℕ)
    (s : CombustionPoints) (p : ℕ) (hp : nShip ≤ p)
    (hInv : CombustionInvariant nShip maxBurningParticles s) :
    CombustionInvariant nShip maxBurningParticles
      (resetEphemeralCombustion s p) := by
  obtain ⟨h1, h2, h3, h4, h5⟩ := hInv
  refine ⟨h1, h2, ?_, ?_, h5⟩
  · intro q hq
    have hqp : q ≠ p := by
      have := h2 q hq
      omega
    simpa [resetEphemeralCombustion, Function.update_noteq hqp] using h3 q hq
  · intro q hq
    by_cases hqp : q = p
    · subst hqp
      simp only [resetEphemeralCombustion, Function.update_same] at hq
      simp [isActiveCombustion] at hq
    · simp only [resetEphemeralCombustion,
        Function.update_noteq hqp] at hq
      exact h4 q hq

/-- Every reachable combustion state satisfies the burning-list invariant. -/
theorem combustionReachable_invariant (nShip maxBurningParticles : ℕ)
    (s : CombustionPoints)
    (h : CombustionReachable nShip maxBurningParticles s) :
    CombustionInvariant nShip maxBurningParticles s := by
  induction h with
  | init => exact combustionInit_invariant nShip maxBurningParticles
  | lowFrequency env pointOffset pointStride s _ ih =>
      exact updateCombustionLowFrequency_preserves_invariant nShip
        maxBurningParticles env pointOffset pointStride s ih
  | highFrequency env s _ ih =>
      exact updateCombustionHighFrequency_preserves_invariant nShip
        maxBurningParticles env s ih
  | orphaned p draw s _ ih =>
      exact onOrphaned_preserves_invariant nShip maxBurningParticles s p draw ih
  | ephemeralReset p s hp _ ih =>
      exact resetEphemeral_preserves_invariant nShip maxBurningParticles s p hp ih
  | decayInterference d s _ ih =>
      obtain ⟨h1, h2, h3, h4, h5⟩ := ih
      exact ⟨h1, h2, h3, h4, h5⟩

theorem activeCombustionCount_le_burningPoints (nTotal nShip
    maxBurningParticles : ℕ) (s : CombustionPoints)
    (hInv : CombustionInvariant nShip maxBurningParticles s) :
    activeCombustionCount nTotal s ≤ s.burningPoints.length := by
  unfold activeCombustionCount
  have hnd : ((List.range nTotal).filter
      (fun p => isActiveCombustion (s.combustionState p).state)).Nodup :=
    (List.nodup_range nTotal).filter _
  have hsub : (List.range nTotal).filter
      (fun p => isActiveCombustion (s.combustionState p).state)
      ⊆ s.burningPoints := by
    intro q hq
    exact hInv.2.2.2.1 q (by simpa using List.of_mem_filter hq)
  exact (hnd.subperm hsub).length_le

/-- C1: for every reachable state of the combustion subsystem, the number of
particles whose combustion state is in
`{Developing(1), Developing(2), Burning}` is at most `MaxBurningParticles`;
the low-frequency ignition pass never ignites more candidates than
`MaxBurningParticles` minus the current size of the burning list; and a
particle leaves the burning list only with its flame development driven to
`0.02` or below in an `Extinguishing` state. -/
theorem combustion_burning_cap (nShip nTotal maxBurningParticles : ℕ)
    (s : CombustionPoints)
    (h : CombustionReachable nShip maxBurningParticles s) :
    activeCombustionCount nTotal s ≤ maxBurningParticles
      ∧ (∀ (env : CombustionLowFreqEnv) (pointOffset pointStride : ℕ),
          (ignitedCandidates nShip maxBurningParticles env pointOffset
            pointStride s).length
            ≤ maxBurningParticles - s.burningPoints.length)
      ∧ (∀ (env : CombustionHighFreqEnv) (p q : ℕ),
          q ∈ s.burningPoints →
          q ∉ (highFreqStep env s p).burningPoints →
          ((highFreqStep env s p).combustionState q).state
              = CombustionStateType.notBurning
            ∧ ((highFreqStep env s p).combustionState q).flameDevelopment
                ≤ 1/50
            ∧ ((s.combustionState q).state
                  = CombustionStateType.extinguishingConsumed
                ∨ (s.combustionState q).state
                    = CombustionStateType.extinguishingSmothered
                ∨ env.isUnderwater q = true
                ∨ env.water q > env.smotheringWaterHighWatermark)) := by
  have hInv := combustionReachable_invariant nShip maxBurningParticles s h
  refine ⟨?_, ?_, ?_⟩
  · exact le_trans
      (activeCombustionCount_le_burningPoints nTotal nShip
        maxBurningParticles s hInv)
      hInv.2.2.2.2
  · intro env pointOffset pointStride
    obtain ⟨_, _, t3⟩ := ignitedCandidates_spec nShip maxBurningParticles env
      pointOffset pointStride s
    rw [t3]
    unfold lowFreqMaxPoints
    have hroom : (if s.burningPoints.length < maxBurningParticles then
          maxBurningParticles - s.burningPoints.length
        else 0) ≤ maxBurningParticles - s.burningPoints.length := by
      split_ifs <;> omega
    exact le_trans (le_trans (Nat.min_le_left _ _) (Nat.min_le_right _ _)) hroom
  · intro env p q hq hq'
    exact highFreqStep_removal env s p q hInv.1 hq hq'

/-- Witness for `combustion_burning_cap` at the initial state. -/
theorem combustion_burning_cap_witness :
    activeCombustionCount 3 combustionInit ≤ 2 :=
  (combustion_burning_cap 1 3 2 combustionInit CombustionReachable.init).1

/-- C2: in every low-frequency combustion pass, the number `K` of candidates
transitioned from `NotBurning` to `Developing(1)` equals
`min(4 + Choose(6), MaxBurningParticles − |burning list|, #candidates)` — a
first operand ranging over 4…10 — the transitioned points are exactly the
ignited candidates, and the ignited candidates carry the highest keys
`(T − effective ignition temperature) / effective ignition temperature`
among all candidates. -/
theorem updateCombustionLowFrequency_ignition_spec
    (nShip maxBurningParticles : ℕ) (env : CombustionLowFreqEnv)
    (pointOffset pointStride : ℕ) (s : CombustionPoints)
    (hdraw : env.chooseDraw ≤ 6) :
    (4 ≤ 4 + env.chooseDraw ∧ 4 + env.chooseDraw ≤ 10)
      ∧ (ignitedCandidates nShip maxBurningParticles env pointOffset
            pointStride s).length
          = min (min (4 + env.chooseDraw)
              (maxBurningParticles - s.burningPoints.length))
            (lowFreqScan nShip env pointOffset pointStride
              s).ignitionCandidates.length
      ∧ (∀ p, ((s.combustionState p).state = CombustionStateType.notBurning
            ∧ ((updateCombustionLowFrequency nShip maxBurningParticles env
                  pointOffset pointStride s).combustionState p).state
                = CombustionStateType.developing1)
          ↔ p ∈ (ignitedCandidates nShip maxBurningParticles env pointOffset
              pointStride s).map Prod.fst)
      ∧ (∀ pk ∈ ignitedCandidates nShip maxBurningParticles env pointOffset
            pointStride s,
          ∀ qk ∈ (lowFreqScan nShip env pointOffset pointStride
            s).ignitionCandidates,
          qk ∉ ignitedCandidates nShip maxBurningParticles env pointOffset
            pointStride s →
          qk.2 ≤ pk.2) := by
  obtain ⟨c1, c2, c3, c4⟩ := lowFreqScan_cands_spec nShip env pointOffset
    pointStride s
  obtain ⟨t1, t2, t3⟩ := ignitedCandidates_spec nShip maxBurningParticles env
    pointOffset pointStride s
  set tk := ignitedCandidates nShip maxBurningParticles env pointOffset
    pointStride s with htk
  set scanned := lowFreqScan nShip env pointOffset pointStride s with hscanned
  set s1 : CombustionPoints :=
    { combustionState := scanned.combustionState
      decay := scanned.decay
      burningPoints := s.burningPoints } with hs1
  have hs' : updateCombustionLowFrequency nShip maxBurningParticles env
      pointOffset pointStride s = tk.foldl (ignitePoint env) s1 := rfl
  refine ⟨⟨by omega, by omega⟩, ?_, ?_, ?_⟩
  · rw [t3]
    unfold lowFreqMaxPoints
    have hif : (if s.burningPoints.length < maxBurningParticles then
          maxBurningParticles - s.burningPoints.length
        else 0) = maxBurningParticles - s.burningPoints.length := by
      split_ifs <;> omega
    rw [hif]
  · intro p
    constructor
    · rintro ⟨hnb, hdev⟩
      by_contra hp
      rw [hs'] at hdev
      rw [igniteFold_state_other env tk s1 p hp] at hdev
      have : (scanned.combustionState p).state
          = CombustionStateType.notBurning :=
        (lowFreqScanFold_notBurning_iff env _ _ p).mpr hnb
      rw [show s1.combustionState p = scanned.combustionState p from rfl]
        at hdev
      rw [this] at hdev
      exact absurd hdev (by simp)
    · intro hp
      obtain ⟨pk, hpk, rfl⟩ := List.mem_map.mp hp
      refine ⟨c3 pk (t2 pk hpk), ?_⟩
      rw [hs']
      exact igniteFold_state_mem env tk s1 t1 pk hpk
  · intro pk hpk qk hqk hqk'
    have hperm : List.Perm
        (scanned.ignitionCandidates.insertionSort candidateOrder)
        scanned.ignitionCandidates :=
      List.perm_insertionSort candidateOrder _
    have hsorted : List.Sorted candidateOrder
        (scanned.ignitionCandidates.insertionSort candidateOrder) :=
      List.sorted_insertionSort candidateOrder _
    set K := lowFreqMaxPoints maxBurningParticles env s.burningPoints.length
      scanned.ignitionCandidates.length with hK
    have htk2 : tk = (scanned.ignitionCandidates.insertionSort
        candidateOrder).take K := rfl
    have hqsorted : qk ∈ scanned.ignitionCandidates.insertionSort
        candidateOrder := hperm.mem_iff.mpr hqk
    have hqdrop : qk ∈ (scanned.ignitionCandidates.insertionSort
        candidateOrder).drop K := by
      rcases List.mem_append.mp
          (by rw [List.take_append_drop K]; exact hqsorted) with h | h
      · exact absurd (htk2 ▸ h) hqk'
      · exact h
    have hsorted2 := hsorted
    rw [← List.take_append_drop K
      (scanned.ignitionCandidates.insertionSort candidateOrder)] at hsorted2
    have := (List.pairwise_append.mp hsorted2).2.2
    exact this pk (htk2 ▸ hpk) qk hqdrop

/-- A concrete low-frequency environment (zero draw, cold world). -/
def combustionSampleEnv : CombustionLowFreqEnv :=
  { temperature := fun _ => 0
    water := fun _ => 0
    isUnderwater := fun _ => false
    materialIgnitionTemperature := fun _ => 500
    connectedNeighbors := fun _ => []
    planeId := fun _ => 0
    decayAlpha := fun _ => 1
    personalityDraw := fun _ => 0
    chooseDraw := 0
    ignitionTemperatureAdjustment := 1
    ignitionTemperatureHighWatermark := 0
    ignitionTemperatureLowWatermark := 0
    smotheringWaterLowWatermark := 1
    smotheringDecayLowWatermark := 0
    smotheringDecayHighWatermark := 0 }

/-- Witness for `updateCombustionLowFrequency_ignition_spec` at the initial
state with the sample environment. -/
theorem updateCombustionLowFrequency_ignition_spec_witness :
    (4 ≤ 4 + combustionSampleEnv.chooseDraw
        ∧ 4 + combustionSampleEnv.chooseDraw ≤ 10)
      ∧ (ignitedCandidates 1 2 combustionSampleEnv 0 1
            combustionInit).length
          = min (min (4 + combustionSampleEnv.chooseDraw)
              (2 - combustionInit.burningPoints.length))
            (lowFreqScan 1 combustionSampleEnv 0 1
              combustionInit).ignitionCandidates.length :=
  ⟨(updateCombustionLowFrequency_ignition_spec 1 2 combustionSampleEnv 0 1
      combustionInit (by decide)).1,
   (updateCombustionLowFrequency_ignition_spec 1 2 combustionSampleEnv 0 1
      combustionInit (by decide)).2.1⟩

end FloatingSandbox
